import Mathlib

/-!
# Netplay relay server: participant dispatch and session registry

A shallow embedding of `NetplayInputPlugin/user.cpp` and
`NetplayInputPlugin/server.cpp`.

* Objects that the C++ code shares through `shared_ptr` live in a `world`: the
  participants in a heap indexed by address, the sessions in the registry map.
* `connection`, `packet`, `room` and the constants of `common.h` are declared in
  headers that are not among the sources.  Calls on a connection are recorded, in
  order, in `world.trace`; inbound packets are byte lists read through a `codec`;
  outbound packets are the sequence of values written to them; the member
  functions of `room` whose effect the specification leaves open are the fields
  of a `room_api`.
* A `double` is a finite value, an infinity or NaN; finite values are exact
  rationals, so rounding is left out.  The clock `timestamp()` is finite; the
  frame timestamps, which come from the clock alone, are rationals, and the
  frame rate is `none` where the code returns `NAN`.
* `log(...)` calls are not embedded.
-/

namespace Netplay

/-! ## Data model -/

/-- Action tags: the enumerators of `PACKET_TYPE` named in `user.cpp`. -/
inductive PACKET_TYPE where
  | VERSION | JOIN | ACCEPT | PATH | PING | PONG | CONTROLLERS | NAME | MESSAGE | QUIT
  | LAG | AUTOLAG | START | INPUT_DATA | INPUT_FILL | FRAME | CONTROLLER_MAP | GOLF
  | SYNC_REQ | SYNC_RES | HIA
  deriving DecidableEq, Repr

/-- One value written to an outbound packet with `<<` or `write_var`; `raw` is an
inbound packet forwarded as it was received. -/
inductive field where
  | type (t : PACKET_TYPE)
  | u8 (n : Nat)
  | u16 (n : Nat)
  | u32 (n : Nat)
  | i32 (n : Int)
  | var (n : Nat)
  | str (s : String)
  | bytes (b : List Nat)
  | raw (b : List Nat)
  deriving DecidableEq, Repr

/-- An outbound packet: what has been written to it since the last `reset()`. -/
abbrev packet := List field

/-- A call made on the connection owned by the participant at address `who`. -/
inductive event where
  | send (who : Nat) (p : packet) (flush : Bool)
  | flush (who : Nat)
  | close (who : Nat)
  | receive (who : Nat)
  deriving DecidableEq, Repr

/-- The values of the C++ type `double`, the finite ones as exact rationals. -/
inductive double where
  | finite (q : ℚ)
  | pos_inf
  | neg_inf
  | nan
  deriving DecidableEq

/-- The comparison `a < b` of two `double`s: false whenever one of them is NaN. -/
def double.lt : double → double → Bool
  | .finite a, .finite b => decide (a < b)
  | .finite _, .pos_inf => true
  | .neg_inf, .finite _ => true
  | .neg_inf, .pos_inf => true
  | _, _ => false

/-- The difference `a - b` of two `double`s. -/
def double.sub : double → double → double
  | .finite a, .finite b => .finite (a - b)
  | .finite _, .pos_inf => .neg_inf
  | .finite _, .neg_inf => .pos_inf
  | .pos_inf, .finite _ => .pos_inf
  | .pos_inf, .neg_inf => .pos_inf
  | .neg_inf, .finite _ => .neg_inf
  | .neg_inf, .pos_inf => .neg_inf
  | _, _ => .nan

/-- Per-slot controller descriptor. -/
structure controller where
  plugin : Nat
  present : Nat
  raw_data : Nat
  deriving DecidableEq, Repr

/-- ROM descriptor supplied at join. -/
structure rom_info where
  crc1 : Nat
  crc2 : Nat
  name : String
  country_code : Nat
  version : Nat
  deriving DecidableEq, Repr

/-- The fields of `class user`.  `my_room` is the weak reference to the session,
held as the session's key in the registry; `my_controller_map` holds the bits of
the controller map. -/
structure user where
  id : Nat
  my_room : Option String
  name : String
  controllers : List controller
  rom : rom_info
  my_controller_map : Nat
  manual_map : Bool
  latency_history : List double
  frame_history : List ℚ
  input_received : Nat
  current_input : List Nat
  pout : packet
  deriving DecidableEq

/-- Modelled from the spec: the fields of `class room` (`room.h` is not among the
sources), as the Session of the data model; `users` holds the addresses of the
participants in join order. -/
structure room where
  id : String
  creation_timestamp : ℚ
  users : List Nat
  started : Bool
  hia : Nat
  autolag : Bool
  golf : Bool
  deriving DecidableEq

/-- The registry (`class server`) together with the participant heap and the
record of connection calls. -/
structure world where
  multiroom : Bool
  rooms : List room
  users : Nat → user
  trace : List event

/-! ## Latency and frame-rate getters -/

/-- `user::is_spectator`.  The class `controller_map` is declared in a header that
is not among the sources; its `empty()` is taken as no bit of `bits` being set. -/
def is_spectator (self : user) : Bool :=
  self.my_controller_map == 0

/-- `user::is_player`. -/
def is_player (self : user) : Bool :=
  !is_spectator self

/-- `user::get_latency` (a `const` member: the object is returned as it was). -/
def get_latency (self : user) : double × user :=
  match self.latency_history with
  | [] => (double.nan, self)
  | front :: _ => (front, self)

/-- The loop of `__unguarded_linear_insert` in libstdc++: `before` holds the
elements in front of the position of `val`, the nearest first; an element is
moved one place back as long as `val` compares less than it.  The caller has
found `val` not less than the first element, where the loop stops at the latest. -/
def unguarded_linear_insert (val : double) : List double → List double
  | [] => [val]
  | next :: before =>
    if double.lt val next then next :: unguarded_linear_insert val before
    else val :: next :: before

/-- One round of the loop of `__insertion_sort` in libstdc++: `sorted` is the range
in front of the element `val`; `val` goes to the front when it compares less than
the first element, and is inserted by `__unguarded_linear_insert` otherwise. -/
def insertion_round (sorted : List double) (val : double) : List double :=
  match sorted with
  | [] => [val]
  | first :: _ =>
    if double.lt val first then val :: sorted
    else (unguarded_linear_insert val sorted.reverse).reverse

/-- `std::sort(lat.begin(), lat.end())` with `operator<`, as libstdc++ runs it on a
range of at most 16 elements: the introsort loop does nothing and
`__final_insertion_sort` is `__insertion_sort`.  The latency history holds at most
7 samples. -/
def sort (lat : List double) : List double :=
  lat.foldl insertion_round []

/-- `user::get_median_latency` (a `const` member working on the copy `lat`).  The
index `lat.size() / 2` lies within the copy, which is as long as the history. -/
def get_median_latency (self : user) : double × user :=
  if self.latency_history.isEmpty then (double.nan, self)
  else
    let lat := self.latency_history
    let lat := sort lat
    (lat.getD (lat.length / 2) double.nan, self)

/-- `user::get_fps`. -/
def get_fps (self : user) : Option ℚ × user :=
  match self.frame_history.head?, self.frame_history.getLast? with
  | some front, some back =>
    if front == back then (none, self)
    else (some (((self.frame_history.length - 1 : Nat) : ℚ) / (back - front)), self)
  | _, _ => (none, self)

/-- The loop `while (latency_history.size() > 7) latency_history.pop_front();`. -/
def pop_latency : List double → List double
  | [] => []
  | x :: rest => if (x :: rest).length > 7 then pop_latency rest else x :: rest

/-- The loop `while (frame_history.front() <= ts - 2.0) frame_history.pop_front();`;
`none` when `front()` is reached on an empty deque. -/
def pop_frames (ts : ℚ) : List ℚ → Option (List ℚ)
  | [] => none
  | t :: rest => if t ≤ ts - 2 then pop_frames ts rest else some (t :: rest)

/-! ## Connections, packets and sessions -/

/-- `conn->send(p, error_handler(), flush)`: the packet is appended to the
outbound buffer of the connection, which is flushed when `flush` is set, as it is
where the call leaves the argument out. -/
def conn_send (w : world) (who : Nat) (p : packet) (flush : Bool) : world :=
  { w with trace := w.trace ++ [event.send who p flush] }

/-- `conn->flush(error_handler())`. -/
def conn_flush (w : world) (who : Nat) : world :=
  { w with trace := w.trace ++ [event.flush who] }

/-- `conn->close()`. -/
def conn_close (w : world) (who : Nat) : world :=
  { w with trace := w.trace ++ [event.close who] }

/-- `conn->receive(...)`: the receive of the next message is armed. -/
def conn_receive (w : world) (who : Nat) : world :=
  { w with trace := w.trace ++ [event.receive who] }

/-- Assignment to the participant object at address `a`. -/
def set_user (w : world) (a : Nat) (u : user) : world :=
  { w with users := Function.update w.users a u }

/-- `my_room.lock()`: the live session the weak reference resolves to, if any. -/
def lock (w : world) : Option String → Option room
  | none => none
  | some key => w.rooms.find? (fun r => r.id == key)

/-- Assignment through a locked session pointer. -/
def set_room_state (w : world) (key : String) (f : room → room) : world :=
  { w with rooms := w.rooms.map (fun r => if r.id == key then f r else r) }

/-- `user::joined`. -/
def joined (w : world) (self : Nat) : Bool :=
  (lock w (w.users self).my_room).isSome

/-- The reads of `packet` and the constants of `common.h`, neither of which is
among the sources.  A read returns the value and the unread bytes, or `none`
where the C++ read throws. -/
structure codec where
  PROTOCOL_VERSION : Nat
  packet_type : Nat → Option PACKET_TYPE
  read_i8 : List Nat → Option (Int × List Nat)
  read_bool : List Nat → Option (Bool × List Nat)
  read_u16 : List Nat → Option (Nat × List Nat)
  read_u32 : List Nat → Option (Nat × List Nat)
  read_var : List Nat → Option (Nat × List Nat)
  read_double : List Nat → Option (double × List Nat)
  read_string : List Nat → Option (String × List Nat)
  read_plugin : List Nat → Option (Nat × List Nat)
  read_present : List Nat → Option (Nat × List Nat)
  read_raw_data : List Nat → Option (Nat × List Nat)
  read_country_code : List Nat → Option (Nat × List Nat)
  read_version : List Nat → Option (Nat × List Nat)

/-- The member functions of `room` (`room.cpp` is not among the sources) whose
effect the specification leaves open, and the values its constructor gives to the
fields the specification does not fix.  Each function takes the key of the
session it is called on. -/
structure room_api where
  initial : room
  update_controller_map : world → String → world
  send_controllers : world → String → world
  send_lag : world → String → Nat → Nat → world
  send_info : world → String → String → world
  on_game_start : world → String → world
  on_user_quit : world → String → Nat → world

/-- `pin.read<uint8_t>()`: one byte of the buffer. -/
def read_u8 : List Nat → Option (Nat × List Nat)
  | [] => none
  | b :: rest => some (b, rest)

/-- The statement `pin >> c.plugin >> c.present >> c.raw_data`: the descriptor as
far as it was assigned, and the unread bytes unless a read threw. -/
def read_controller (c : codec) (ctl : controller) (pin : List Nat) :
    controller × Option (List Nat) :=
  match c.read_plugin pin with
  | none => (ctl, none)
  | some (v, pin) =>
    let ctl := { ctl with plugin := v }
    match c.read_present pin with
    | none => (ctl, none)
    | some (v, pin) =>
      let ctl := { ctl with present := v }
      match c.read_raw_data pin with
      | none => (ctl, none)
      | some (v, pin) => ({ ctl with raw_data := v }, some pin)

/-- The loop `for (auto& c : controllers) pin >> c.plugin >> c.present >> c.raw_data;`. -/
def read_controllers (c : codec) : List controller → List Nat →
    List controller × Option (List Nat)
  | [], pin => ([], some pin)
  | ctl :: rest, pin =>
    match read_controller c ctl pin with
    | (ctl, none) => (ctl :: rest, none)
    | (ctl, some pin) =>
      match read_controllers c rest pin with
      | (rest, r) => (ctl :: rest, r)

/-- The statement `pin >> rom.crc1 >> rom.crc2 >> rom.name >> rom.country_code >> rom.version`. -/
def read_rom (c : codec) (rom : rom_info) (pin : List Nat) : rom_info × Option (List Nat) :=
  match c.read_u32 pin with
  | none => (rom, none)
  | some (v, pin) =>
    let rom := { rom with crc1 := v }
    match c.read_u32 pin with
    | none => (rom, none)
    | some (v, pin) =>
      let rom := { rom with crc2 := v }
      match c.read_string pin with
      | none => (rom, none)
      | some (v, pin) =>
        let rom := { rom with name := v }
        match c.read_country_code pin with
        | none => (rom, none)
        | some (v, pin) =>
          let rom := { rom with country_code := v }
          match c.read_version pin with
          | none => (rom, none)
          | some (v, pin) => ({ rom with version := v }, some pin)

/-- Conversion of a `uint32_t` argument to an `int32_t` parameter. -/
def to_int32 (n : Nat) : Int :=
  if n % 2 ^ 32 < 2 ^ 31 then ((n % 2 ^ 32 : Nat) : Int) else ((n % 2 ^ 32 : Nat) : Int) - 2 ^ 32

/-! ## Outbound messages of a participant -/

/-- `user::set_room`; the session is given by its key. -/
def set_room (w : world) (self : Nat) (key : String) : world :=
  let p : packet := [field.type PACKET_TYPE.PATH, field.str ("/" ++ key)]
  let w := set_user w self { w.users self with my_room := some key, pout := p }
  conn_send w self p true

/-- `user::send_name`. -/
def send_name (w : world) (self : Nat) (user_id : Nat) (name : String) : world :=
  let p : packet := [field.type PACKET_TYPE.NAME, field.u32 user_id, field.str name]
  conn_send (set_user w self { w.users self with pout := p }) self p true

/-- `user::send_message`. -/
def send_message (w : world) (self : Nat) (id : Int) (message : String) : world :=
  let p : packet := [field.type PACKET_TYPE.MESSAGE, field.i32 id, field.str message]
  conn_send (set_user w self { w.users self with pout := p }) self p true

/-- `user::send_hia`. -/
def send_hia (w : world) (self : Nat) (hia : Nat) : world :=
  let p : packet := [field.type PACKET_TYPE.HIA, field.var hia]
  conn_send (set_user w self { w.users self with pout := p }) self p true

/-- The loop of `user::send_input` over `r->users`: `true` when it runs to its end,
`false` when it returns from the function. -/
def send_input_loop (w : world) (self : Nat) (sender : Nat) : List Nat → Bool
  | [] => true
  | u :: rest =>
    if (w.users u).id == (w.users self).id then send_input_loop w self sender rest
    else if is_spectator (w.users u) then send_input_loop w self sender rest
    else if (w.users u).input_received < (w.users sender).input_received then false
    else send_input_loop w self sender rest

/-- `user::send_input`, called on the participant at `self` with a reference to the
participant at `sender`; `none` when `my_room.lock()` is null and is dereferenced. -/
def send_input (w : world) (self : Nat) (sender : Nat) (p : packet) : Option world :=
  let w := conn_send w self p false
  match lock w (w.users self).my_room with
  | none => none
  | some r =>
    if r.hia != 0 then some w
    else if send_input_loop w self sender r.users then some (conn_flush w self)
    else some w

/-! ## Registry -/

/-- Modelled from the spec: the constructor of `room` (`room.cpp` is not among the
sources).  A session is created under the given identifier, with its creation
time, no participant, and not started. -/
def room.create (api : room_api) (room_id : String) (now : ℚ) : room :=
  { api.initial with id := room_id, creation_timestamp := now, users := [], started := false }

/-- Modelled from the spec: `room::on_user_join` (`room.cpp` is not among the
sources).  Join adds the participant at the end of the ordered set, and the
participant learns its session through `user::set_room`, which sends the Path
message. -/
def room.on_user_join (w : world) (key : String) (user : Nat) : world :=
  set_room (set_room_state w key (fun r => { r with users := r.users ++ [user] })) user key

/-- Modelled from the spec: `room::set_hia` (`room.cpp` is not among the sources).
The new aggregation rate is stored. -/
def room.set_hia (w : world) (key : String) (hia : Nat) : world :=
  set_room_state w key (fun r => { r with hia := hia })

/-- Modelled from the spec: `room::get_user` (`room.cpp` is not among the sources).
The participant of the session with the given identity, if there is one. -/
def room.get_user (w : world) (r : room) (user_id : Nat) : Option Nat :=
  r.users.find? (fun u => (w.users u).id == user_id)

/-- The constant `ALPHABET` of `server::get_random_room_id`. -/
def ALPHABET : List Char :=
  "ABCDEFGHIJKLMNOPQRSTUVWXYZabcdefghijklmnopqrstuvwxyz0123456789".data

/-- `ALPHABET[dist(rd)]`, the distribution being uniform over `0 .. 61`. -/
def ALPHABET_at (d : Fin 62) : Char :=
  ALPHABET.getD d.val 'A'

/-- `server::get_random_room_id`, given the successive values of `dist(rd)`;
`none` when the given draws run out with the loop still running. -/
def server.get_random_room_id (w : world) : List (Fin 62) → Option String
  | d0 :: d1 :: d2 :: d3 :: d4 :: rest =>
    let result := String.mk
      [ALPHABET_at d0, ALPHABET_at d1, ALPHABET_at d2, ALPHABET_at d3, ALPHABET_at d4]
    if w.rooms.any (fun r => r.id == result) then server.get_random_room_id w rest
    else some result
  | _ => none

/-- `server::on_user_join`; `now` is the clock and `draws` the random source. -/
def server.on_user_join (api : room_api) (w : world) (user : Nat) (room_id : String)
    (now : ℚ) (draws : List (Fin 62)) : Option world :=
  let resolved :=
    if w.multiroom then
      if room_id == "" then server.get_random_room_id w draws else some room_id
    else some ("")
  match resolved with
  | none => none
  | some room_id =>
    let w :=
      if (w.rooms.find? (fun r => r.id == room_id)).isNone then
        { w with rooms := w.rooms ++ [room.create api room_id now] }
      else w
    some (room.on_user_join w room_id user)

/-! ## Protocol dispatch -/

/-- How control leaves the `switch` of `user::process_packet`. -/
inductive outcome where
  | done (w : world)
  | returned (w : world)
  | thrown (w : world)

/-- What `conn->receive` hands to the callback. -/
inductive received where
  | error
  | data (pin : List Nat)

/-- The function returned by `user::error_handler`, called with an error set. -/
def error_handler (api : room_api) (w : world) (self : Nat) : world :=
  match lock w (w.users self).my_room with
  | some r => conn_close (api.on_user_quit w r.id self) self
  | none => conn_close w self

/-- `case JOIN`.  The registry outlives its participants: `my_server` is not
expired. -/
def case_JOIN (c : codec) (api : room_api) (w : world) (self : Nat) (pin : List Nat)
    (now : ℚ) (draws : List (Fin 62)) : Option outcome :=
  if joined w self then some (.done w)
  else
    match c.read_u32 pin with
    | none => some (.thrown w)
    | some (protocol_version, pin) =>
      if protocol_version != c.PROTOCOL_VERSION then some (.returned (conn_close w self))
      else
        match c.read_string pin with
        | none => some (.thrown w)
        | some (room, pin) =>
          let room := match room.data with
            | '/' :: rest => String.mk rest
            | _ => room
          match c.read_string pin with
          | none => some (.thrown w)
          | some (name, pin) =>
            let w := set_user w self { w.users self with name := name }
            match read_controllers c (w.users self).controllers pin with
            | (cs, none) => some (.thrown (set_user w self { w.users self with controllers := cs }))
            | (cs, some pin) =>
              let w := set_user w self { w.users self with controllers := cs }
              match (if pin.isEmpty then ((w.users self).rom, some pin)
                     else read_rom c (w.users self).rom pin) with
              | (rom, none) => some (.thrown (set_user w self { w.users self with rom := rom }))
              | (rom, some _) =>
                let w := set_user w self { w.users self with rom := rom }
                match server.on_user_join api w self room now draws with
                | none => none
                | some w => some (.done w)

/-- `case PING`. -/
def case_PING (w : world) (self : Nat) (pin : List Nat) : Option outcome :=
  let p : packet := field.type PACKET_TYPE.PONG :: pin.map field.u8
  let w := set_user w self { w.users self with pout := p }
  some (.done (conn_send w self p true))

/-- `case PONG`; `now` is the value of `timestamp()`. -/
def case_PONG (c : codec) (w : world) (self : Nat) (pin : List Nat) (now : ℚ) :
    Option outcome :=
  match c.read_double pin with
  | none => some (.thrown w)
  | some (t, _) =>
    let u := w.users self
    some (.done (set_user w self
      { u with latency_history :=
          pop_latency (u.latency_history ++ [double.sub (double.finite now) t]) }))

/-- `case CONTROLLERS`. -/
def case_CONTROLLERS (c : codec) (api : room_api) (w : world) (self : Nat)
    (pin : List Nat) : Option outcome :=
  match lock w (w.users self).my_room with
  | none => some (.done w)
  | some r =>
    match read_controllers c (w.users self).controllers pin with
    | (cs, none) => some (.thrown (set_user w self { w.users self with controllers := cs }))
    | (cs, some _) =>
      let w := set_user w self { w.users self with controllers := cs }
      let w := if !r.started then api.update_controller_map w r.id else w
      some (.done (api.send_controllers w r.id))

/-- `case NAME`. -/
def case_NAME (c : codec) (w : world) (self : Nat) (pin : List Nat) : Option outcome :=
  match lock w (w.users self).my_room with
  | none => some (.done w)
  | some r =>
    match c.read_string pin with
    | none => some (.thrown w)
    | some (name, _) =>
      let w := set_user w self { w.users self with name := name }
      some (.done (r.users.foldl (fun w u => send_name w u (w.users self).id (w.users self).name) w))

/-- `case MESSAGE`. -/
def case_MESSAGE (c : codec) (w : world) (self : Nat) (pin : List Nat) : Option outcome :=
  match lock w (w.users self).my_room with
  | none => some (.done w)
  | some r =>
    match c.read_string pin with
    | none => some (.thrown w)
    | some (message, _) =>
      some (.done (r.users.foldl
        (fun w u => if u == self then w else send_message w u (to_int32 (w.users self).id) message) w))

/-- `case LAG`. -/
def case_LAG (api : room_api) (w : world) (self : Nat) (pin : List Nat) : Option outcome :=
  match lock w (w.users self).my_room with
  | none => some (.done w)
  | some r =>
    match read_u8 pin with
    | none => some (.thrown w)
    | some (lag, _) => some (.done (api.send_lag w r.id (w.users self).id lag))

/-- `case AUTOLAG`. -/
def case_AUTOLAG (c : codec) (api : room_api) (w : world) (self : Nat) (pin : List Nat) :
    Option outcome :=
  match lock w (w.users self).my_room with
  | none => some (.done w)
  | some r =>
    match c.read_i8 pin with
    | none => some (.thrown w)
    | some (value, _) =>
      if value == (if r.autolag then 1 else 0) then some (.done w)
      else
        let autolag := if value == 0 then false else if value == 1 then true else !r.autolag
        let w := set_room_state w r.id (fun r => { r with autolag := autolag })
        if autolag then some (.done (api.send_info w r.id ("Automatic Lag is enabled")))
        else some (.done (api.send_info w r.id ("Automatic Lag is disabled")))

/-- `case START`. -/
def case_START (api : room_api) (w : world) (self : Nat) : Option outcome :=
  match lock w (w.users self).my_room with
  | none => some (.done w)
  | some r => some (.done (api.on_game_start w r.id))

/-- The loop of `case INPUT_DATA` over `r->users`. -/
def input_data_loop (self : Nat) (p : packet) : world → List Nat → Option world
  | w, [] => some w
  | w, u :: rest =>
    if u == self then input_data_loop self p w rest
    else
      match send_input w u self p with
      | none => none
      | some w => input_data_loop self p w rest

/-- `case INPUT_DATA`. -/
def case_INPUT_DATA (w : world) (self : Nat) (pin : List Nat) : Option outcome :=
  match lock w (w.users self).my_room with
  | none => some (.done w)
  | some r =>
    let u := w.users self
    let w := set_user w self
      { u with input_received := (u.input_received + 1) % 2 ^ 32, current_input := pin }
    if r.hia == 0 then
      let p : packet := [field.type PACKET_TYPE.INPUT_DATA, field.u32 (w.users self).id,
        field.bytes (w.users self).current_input]
      let w := set_user w self { w.users self with pout := p }
      match input_data_loop self p w r.users with
      | none => none
      | some w => some (.done w)
    else some (.done w)

/-- The loops `for (auto& u : r->users) { if (u->id == id) continue; u->conn->send(p, ...); }`. -/
def send_to_others (w : world) (self : Nat) (p : packet) (users : List Nat) : world :=
  users.foldl (fun w u => if (w.users u).id == (w.users self).id then w else conn_send w u p true) w

/-- `case INPUT_FILL`. -/
def case_INPUT_FILL (c : codec) (w : world) (self : Nat) (pin : List Nat) : Option outcome :=
  match lock w (w.users self).my_room with
  | none => some (.done w)
  | some r =>
    match c.read_u32 pin with
    | none => some (.thrown w)
    | some (v, _) =>
      let w := set_user w self { w.users self with input_received := v }
      let p : packet := [field.type PACKET_TYPE.INPUT_FILL, field.u32 (w.users self).id,
        field.u32 (w.users self).input_received]
      let w := set_user w self { w.users self with pout := p }
      some (.done (send_to_others w self p r.users))

/-- `case FRAME`; `ts` is the value of `timestamp()`. -/
def case_FRAME (w : world) (self : Nat) (ts : ℚ) : Option outcome :=
  let u := w.users self
  match pop_frames ts (u.frame_history ++ [ts]) with
  | none => none
  | some h => some (.done (set_user w self { u with frame_history := h }))

/-- `case CONTROLLER_MAP`. -/
def case_CONTROLLER_MAP (c : codec) (w : world) (self : Nat) (pin : List Nat) :
    Option outcome :=
  match lock w (w.users self).my_room with
  | none => some (.done w)
  | some r =>
    match c.read_u16 pin with
    | none => some (.thrown w)
    | some (bits, _) =>
      let p : packet := [field.type PACKET_TYPE.CONTROLLER_MAP, field.u32 (w.users self).id,
        field.u16 bits]
      let w := set_user w self { w.users self with pout := p }
      let w := send_to_others w self p r.users
      some (.done (set_user w self
        { w.users self with my_controller_map := bits, manual_map := true }))

/-- `case GOLF`; `whole` is the packet as it was received. -/
def case_GOLF (c : codec) (w : world) (self : Nat) (whole pin : List Nat) : Option outcome :=
  match lock w (w.users self).my_room with
  | none => some (.done w)
  | some r =>
    match c.read_bool pin with
    | none => some (.thrown w)
    | some (golf, _) =>
      let w := set_room_state w r.id (fun r => { r with golf := golf })
      some (.done (send_to_others w self [field.raw whole] r.users))

/-- `case SYNC_REQ`. -/
def case_SYNC_REQ (c : codec) (w : world) (self : Nat) (pin : List Nat) : Option outcome :=
  match lock w (w.users self).my_room with
  | none => some (.done w)
  | some r =>
    match c.read_u32 pin with
    | none => some (.thrown w)
    | some (sync_id, _) =>
      let p : packet := [field.type PACKET_TYPE.SYNC_REQ, field.u32 (w.users self).id,
        field.u32 sync_id]
      let w := set_user w self { w.users self with pout := p }
      some (.done (send_to_others w self p r.users))

/-- `case SYNC_RES`. -/
def case_SYNC_RES (c : codec) (w : world) (self : Nat) (pin : List Nat) : Option outcome :=
  match lock w (w.users self).my_room with
  | none => some (.done w)
  | some r =>
    match c.read_u32 pin with
    | none => some (.thrown w)
    | some (user_id, pin) =>
      match room.get_user w r user_id with
      | none => some (.done w)
      | some user =>
        match c.read_u32 pin with
        | none => some (.thrown w)
        | some (sync_id, pin) =>
          match c.read_u32 pin with
          | none => some (.thrown w)
          | some (frame, _) =>
            let p : packet := [field.type PACKET_TYPE.SYNC_RES, field.u32 (w.users self).id,
              field.u32 sync_id, field.u32 frame]
            let w := set_user w self { w.users self with pout := p }
            some (.done (conn_send w user p true))

/-- `case HIA`. -/
def case_HIA (c : codec) (w : world) (self : Nat) (pin : List Nat) : Option outcome :=
  match lock w (w.users self).my_room with
  | none => some (.done w)
  | some r =>
    match c.read_var pin with
    | none => some (.thrown w)
    | some (q, _) =>
      let hia := min 240 q
      if !r.started || (r.hia != 0 && hia != 0) then
        let w := room.set_hia w r.id hia
        some (.done (r.users.foldl (fun w u => send_hia w u hia) w))
      else some (.done w)

/-- The `switch` of `user::process_packet` on the tag read from the packet. -/
def dispatch (c : codec) (api : room_api) (w : world) (self : Nat) (whole : List Nat)
    (tag : Nat) (pin : List Nat) (now : ℚ) (draws : List (Fin 62)) : Option outcome :=
  match c.packet_type tag with
  | some .JOIN => case_JOIN c api w self pin now draws
  | some .PING => case_PING w self pin
  | some .PONG => case_PONG c w self pin now
  | some .CONTROLLERS => case_CONTROLLERS c api w self pin
  | some .NAME => case_NAME c w self pin
  | some .MESSAGE => case_MESSAGE c w self pin
  | some .LAG => case_LAG api w self pin
  | some .AUTOLAG => case_AUTOLAG c api w self pin
  | some .START => case_START api w self
  | some .INPUT_DATA => case_INPUT_DATA w self pin
  | some .INPUT_FILL => case_INPUT_FILL c w self pin
  | some .FRAME => case_FRAME w self now
  | some .CONTROLLER_MAP => case_CONTROLLER_MAP c w self pin
  | some .GOLF => case_GOLF c w self whole pin
  | some .SYNC_REQ => case_SYNC_REQ c w self pin
  | some .SYNC_RES => case_SYNC_RES c w self pin
  | some .HIA => case_HIA c w self pin
  | _ => some (.done w)

/-- The callback that `user::process_packet` hands to `conn->receive`, run on one
received message: `now` is the clock, `draws` the random source.  `none` when the
C++ code has no defined result there, or when the draws run out. -/
def process_packet (c : codec) (api : room_api) (w : world) (self : Nat) (rx : received)
    (now : ℚ) (draws : List (Fin 62)) : Option world :=
  match rx with
  | .error => some (error_handler api w self)
  | .data [] => some (conn_receive w self)
  | .data (tag :: pin) =>
    match dispatch c api w self (tag :: pin) tag pin now draws with
    | none => none
    | some (.done w) => some (conn_receive w self)
    | some (.returned w) => some w
    | some (.thrown w) => some (conn_close w self)

/-- One completion of `conn->receive`: what was received, the clock at that moment
and the random draws available to the handler. -/
structure arrival where
  rx : received
  now : ℚ
  draws : List (Fin 62)

/-- The receive loop of one participant: the callback run on the successive
arrivals, for as long as each run ends by arming the receive of the next. -/
def process_packets (c : codec) (api : room_api) (self : Nat) :
    world → List arrival → Option world
  | w, [] => some w
  | w, a :: rest =>
    match process_packet c api w self a.rx a.now a.draws with
    | none => none
    | some w =>
      if w.trace.getLast? = some (event.receive self) then process_packets c api self w rest
      else some w

/-! ## One wire format and one environment, to run the embedding on concrete bytes

The theorems below hold for every `codec` and every `room_api`; the instances of
this section supply concrete inputs. -/

/-- A big-endian unsigned integer of `n` bytes. -/
def read_be (n : Nat) (pin : List Nat) : Option (Nat × List Nat) :=
  if pin.length < n then none
  else some ((pin.take n).foldl (fun a b => a * 256 + b) 0, pin.drop n)

/-- A little-endian base-128 variable-length unsigned integer. -/
def read_leb : List Nat → Option (Nat × List Nat)
  | [] => none
  | b :: rest =>
    if b < 128 then some (b, rest)
    else
      match read_leb rest with
      | none => none
      | some (v, rest) => some (b % 128 + 128 * v, rest)

/-- An IEEE 754 binary64 value, big-endian; the finite values are exact. -/
def read_binary64 (pin : List Nat) : Option (double × List Nat) :=
  match read_be 8 pin with
  | none => none
  | some (bits, rest) =>
    let e : Nat := bits / 2 ^ 52 % 2048
    let m : Nat := bits % 2 ^ 52
    let mag : ℚ :=
      if e = 0 then mkRat (m : Int) (2 ^ 1074)
      else mkRat (((2 ^ 52 + m) * 2 ^ (e - 1075) : Nat) : Int) (2 ^ (1075 - e))
    if e = 2047 then
      if m = 0 then some (if bits / 2 ^ 63 = 0 then double.pos_inf else double.neg_inf, rest)
      else some (double.nan, rest)
    else some (double.finite (if bits / 2 ^ 63 = 0 then mag else -mag), rest)

/-- A string: its length as a variable-length integer, then its bytes. -/
def read_text (pin : List Nat) : Option (String × List Nat) :=
  match read_leb pin with
  | none => none
  | some (n, rest) =>
    if rest.length < n then none
    else some (String.mk ((rest.take n).map Char.ofNat), rest.drop n)

/-- Modelled from the spec: the numbering of `PACKET_TYPE` (`common.h` is not among
the sources), in the order in which the action tags are listed in the section on
external interfaces. -/
def packet_type_of : Nat → Option PACKET_TYPE
  | 0 => some .VERSION | 1 => some .JOIN | 2 => some .ACCEPT | 3 => some .PATH
  | 4 => some .PING | 5 => some .PONG | 6 => some .CONTROLLERS | 7 => some .NAME
  | 8 => some .MESSAGE | 9 => some .QUIT | 10 => some .LAG | 11 => some .AUTOLAG
  | 12 => some .START | 13 => some .INPUT_DATA | 14 => some .INPUT_FILL | 15 => some .FRAME
  | 16 => some .CONTROLLER_MAP | 17 => some .GOLF | 18 => some .SYNC_REQ
  | 19 => some .SYNC_RES | 20 => some .HIA
  | _ => none

/-- One wire format: big-endian fixed-width integers, base-128 variable-length
integers, length-prefixed strings, binary64 doubles. -/
def wire : codec where
  PROTOCOL_VERSION := 1
  packet_type := packet_type_of
  read_i8 := fun pin => (read_u8 pin).map (fun r => (if r.1 < 128 then (r.1 : Int) else (r.1 : Int) - 256, r.2))
  read_bool := fun pin => (read_u8 pin).map (fun r => (r.1 != 0, r.2))
  read_u16 := read_be 2
  read_u32 := read_be 4
  read_var := read_leb
  read_double := read_binary64
  read_string := read_text
  read_plugin := read_be 4
  read_present := read_be 4
  read_raw_data := read_be 4
  read_country_code := read_be 2
  read_version := read_be 1

/-- An environment in which the member functions of `room` that the specification
leaves open have no effect. -/
def still : room_api where
  initial := { id := "", creation_timestamp := 0, users := [], started := false, hia := 0,
               autolag := false, golf := false }
  update_controller_map := fun w _ => w
  send_controllers := fun w _ => w
  send_lag := fun w _ _ _ => w
  send_info := fun w _ _ => w
  on_game_start := fun w _ => w
  on_user_quit := fun w _ _ => w

/-- A participant with the given identity, not joined, with empty histories and a
zero input counter. -/
def new_user (id : Nat) : user :=
  { id := id, my_room := none, name := "", controllers := List.replicate 4 ⟨0, 0, 0⟩,
    rom := ⟨0, 0, "", 0, 0⟩, my_controller_map := 0, manual_map := false,
    latency_history := [], frame_history := [], input_received := 0, current_input := [],
    pout := [] }

/-- A registry with no session, the address `i` holding `new_user i`. -/
def empty_world (multiroom : Bool) : world :=
  { multiroom := multiroom, rooms := [], users := new_user, trace := [] }

/-- A registry holding the one session "game" with three participants in join
order: the player at address 1 with `input_received = a`, the spectator at
address 2, the player at address 3 with `input_received = c`; the session has the
given `started` flag and aggregation rate. -/
def three_joined (started : Bool) (hia a c : Nat) : world :=
  { multiroom := true
    rooms := [{ id := "game", creation_timestamp := 0, users := [1, 2, 3], started := started,
                hia := hia, autolag := false, golf := false }]
    users := fun i =>
      if i = 1 then
        { new_user 1 with my_room := some ("game"), my_controller_map := 1, input_received := a }
      else if i = 2 then { new_user 2 with my_room := some ("game") }
      else if i = 3 then
        { new_user 3 with my_room := some ("game"), my_controller_map := 16, input_received := c }
      else new_user i
    trace := [] }

/-! ## Lemmas on the two pruning loops -/

theorem pop_latency_eq_drop (l : List double) : pop_latency l = l.drop (l.length - 7) := by
  induction l with
  | nil => rfl
  | cons x rest ih =>
    unfold pop_latency
    split
    · rename_i h
      simp only [List.length_cons] at h
      have e : rest.length + 1 - 7 = (rest.length - 7) + 1 := by omega
      rw [ih, List.length_cons, e, List.drop_succ_cons]
    · rename_i h
      simp only [List.length_cons] at h
      have e : rest.length + 1 - 7 = 0 := by omega
      rw [List.length_cons, e, List.drop_zero]

theorem pop_frames_of_sorted (ts : ℚ) (h : List ℚ) (hs : h.Sorted (· ≤ ·)) :
    pop_frames ts (h ++ [ts]) = some (h.filter (fun t => decide (ts - t < 2)) ++ [ts]) := by
  induction h with
  | nil =>
    have : ¬ ts ≤ ts - 2 := by linarith
    simp [pop_frames, this]
  | cons t rest ih =>
    rw [List.sorted_cons] at hs
    by_cases ht : t ≤ ts - 2
    · have hf : ¬ ts - t < 2 := by linarith
      have e : pop_frames ts (t :: rest ++ [ts]) = pop_frames ts (rest ++ [ts]) := by
        show (if t ≤ ts - 2 then pop_frames ts (rest ++ [ts]) else _) = _
        rw [if_pos ht]
      rw [e, ih hs.2, List.filter_cons_of_neg (by simpa using hf)]
    · have hall : ∀ x ∈ t :: rest, decide (ts - x < 2) = true := by
        intro x hx
        rcases List.mem_cons.1 hx with rfl | hx
        · simp only [decide_eq_true_eq]; linarith
        · have := hs.1 x hx
          simp only [decide_eq_true_eq]; linarith
      have e : pop_frames ts (t :: rest ++ [ts]) = some (t :: rest ++ [ts]) := by
        show (if t ≤ ts - 2 then pop_frames ts (rest ++ [ts]) else _) = _
        rw [if_neg ht]
        rfl
      rw [e, List.filter_eq_self.2 hall]

theorem drop_last_seven_append (l xs : List double) :
    (l.drop (l.length - 7) ++ xs).drop ((l.drop (l.length - 7) ++ xs).length - 7) =
      (l ++ xs).drop ((l ++ xs).length - 7) := by
  have hk : l.length - 7 ≤ l.length := Nat.sub_le _ _
  have e : (l ++ xs).length - 7 =
      (l.length - 7) + ((l.drop (l.length - 7) ++ xs).length - 7) := by
    simp only [List.length_append, List.length_drop]
    omega
  rw [e, ← List.drop_drop, List.drop_append_of_le_length hk]

theorem process_packet_PONG (c : codec) (api : room_api) (w : world) (self tag : Nat)
    (pin rest : List Nat) (now : ℚ) (t : double) (draws : List (Fin 62))
    (htag : c.packet_type tag = some PACKET_TYPE.PONG)
    (hread : c.read_double pin = some (t, rest)) :
    process_packet c api w self (received.data (tag :: pin)) now draws =
      some (conn_receive (set_user w self { w.users self with
        latency_history := pop_latency ((w.users self).latency_history ++
          [double.sub (double.finite now) t]) }) self) := by
  simp only [process_packet, dispatch, htag, case_PONG, hread]

theorem latency_history_after_pongs (c : codec) (api : room_api) (self : Nat)
    (msgs : List arrival) (samples : List double)
    (hpong : List.Forall₂ (fun a x => ∃ tag pin t rest, a.rx = received.data (tag :: pin) ∧
      c.packet_type tag = some PACKET_TYPE.PONG ∧ c.read_double pin = some (t, rest) ∧
      x = double.sub (double.finite a.now) t) msgs samples) :
    ∀ w : world, (w.users self).latency_history.length ≤ 7 →
      ∃ w', process_packets c api self w msgs = some w' ∧
        (w'.users self).latency_history =
          ((w.users self).latency_history ++ samples).drop
            (((w.users self).latency_history ++ samples).length - 7) := by
  induction hpong with
  | nil =>
    intro w hw
    refine ⟨w, rfl, ?_⟩
    have e : (w.users self).latency_history.length - 7 = 0 := by omega
    simp [e]
  | @cons a x msgs samples hax _ ih =>
    intro w hw
    obtain ⟨tag, pin, t, rest, hrx, htag, hread, hx⟩ := hax
    have hstep := process_packet_PONG c api w self tag pin rest a.now t a.draws htag hread
    rw [← hrx, ← hx] at hstep
    have hnew : ((conn_receive (set_user w self { w.users self with
        latency_history := pop_latency ((w.users self).latency_history ++ [x]) }) self).users
          self).latency_history = ((w.users self).latency_history ++ [x]).drop
            (((w.users self).latency_history ++ [x]).length - 7) := by
      simp only [conn_receive, set_user, Function.update_same, pop_latency_eq_drop]
    have hlen : ((conn_receive (set_user w self { w.users self with
        latency_history := pop_latency ((w.users self).latency_history ++ [x]) }) self).users
          self).latency_history.length ≤ 7 := by
      rw [hnew]
      simp only [List.length_drop, List.length_append, List.length_singleton]
      omega
    obtain ⟨w', hrun, hhist⟩ := ih _ hlen
    refine ⟨w', ?_, ?_⟩
    · simp only [process_packets, hstep]
      rw [if_pos (by simp [conn_receive])]
      exact hrun
    · rw [hhist, hnew, drop_last_seven_append, List.append_assoc, List.singleton_append]

/-! ## Lemmas on the comparison of doubles and on the sort -/

theorem double.lt_asymm (a b : double) (h : double.lt a b = true) : double.lt b a = false := by
  cases a <;> cases b <;> simp_all [double.lt]
  exact le_of_lt h

theorem double.le_trans (a b c : double) (hb : b ≠ double.nan)
    (h1 : double.lt b a = false) (h2 : double.lt c b = false) : double.lt c a = false := by
  cases a <;> cases b <;> cases c <;> simp_all [double.lt]
  linarith

theorem double.lt_of_lt_of_le (x f y : double) (h1 : double.lt x f = true)
    (h2 : double.lt y f = false) : double.lt y x = false := by
  cases x <;> cases f <;> cases y <;> simp_all [double.lt]
  linarith

theorem double.eq_or_lt (a b : double) (ha : a ≠ double.nan) (hb : b ≠ double.nan)
    (h : double.lt b a = false) : a = b ∨ double.lt a b = true := by
  cases a <;> cases b <;> simp_all [double.lt]
  exact eq_or_lt_of_le h

theorem unguarded_linear_insert_perm (val : double) (before : List double) :
    (unguarded_linear_insert val before).Perm (val :: before) := by
  induction before with
  | nil => exact List.Perm.refl _
  | cons next before ih =>
    unfold unguarded_linear_insert
    split
    · exact ((List.Perm.cons next ih).trans (List.Perm.swap val next before))
    · exact List.Perm.refl _

theorem unguarded_linear_insert_descending (val : double) :
    ∀ before : List double, (∀ x ∈ before, x ≠ double.nan) →
      before.Pairwise (fun a b => double.lt a b = false) →
      (unguarded_linear_insert val before).Pairwise (fun a b => double.lt a b = false) := by
  intro before
  induction before with
  | nil => intro _ _; simp [unguarded_linear_insert]
  | cons next before ih =>
    intro hnan hp
    rw [List.pairwise_cons] at hp
    have hnext : next ≠ double.nan := hnan next (List.mem_cons_self _ _)
    unfold unguarded_linear_insert
    split
    · rename_i hlt
      rw [List.pairwise_cons]
      refine ⟨?_, ih (fun x hx => hnan x (List.mem_cons_of_mem _ hx)) hp.2⟩
      intro y hy
      rcases List.mem_cons.1 ((unguarded_linear_insert_perm val before).subset hy) with h | h
      · rw [h]; exact double.lt_asymm _ _ hlt
      · exact hp.1 y h
    · rename_i hlt
      have hge : double.lt val next = false := by simpa using hlt
      rw [List.pairwise_cons]
      refine ⟨?_, List.pairwise_cons.2 hp⟩
      intro y hy
      rcases List.mem_cons.1 hy with h | h
      · rw [h]; exact hge
      · exact double.le_trans y next val hnext (hp.1 y h) hge

theorem insertion_round_perm (sorted : List double) (val : double) :
    (insertion_round sorted val).Perm (val :: sorted) := by
  unfold insertion_round
  split
  · exact List.Perm.refl _
  · rename_i first rest
    split
    · exact List.Perm.refl _
    · exact (List.reverse_perm _).trans
        ((unguarded_linear_insert_perm val _).trans (List.Perm.cons val (List.reverse_perm _)))

theorem insertion_round_ascending (sorted : List double) (val : double)
    (hnan : ∀ x ∈ sorted, x ≠ double.nan)
    (hp : sorted.Pairwise (fun a b => double.lt b a = false)) :
    (insertion_round sorted val).Pairwise (fun a b => double.lt b a = false) := by
  unfold insertion_round
  split
  · simp
  · rename_i first rest
    rw [List.pairwise_cons] at hp
    split
    · rename_i hlt
      rw [List.pairwise_cons]
      refine ⟨?_, List.pairwise_cons.2 hp⟩
      intro y hy
      rcases List.mem_cons.1 hy with h | h
      · rw [h]; exact double.lt_asymm _ _ hlt
      · exact double.lt_of_lt_of_le val first y hlt (hp.1 y h)
    · rw [List.pairwise_reverse]
      apply unguarded_linear_insert_descending
      · intro x hx
        exact hnan x (List.mem_reverse.1 hx)
      · rw [List.pairwise_reverse]
        exact List.pairwise_cons.2 hp

theorem sort_fold_perm (l : List double) : ∀ acc : List double,
    (l.foldl insertion_round acc).Perm (acc ++ l) := by
  induction l with
  | nil => intro acc; simp
  | cons x rest ih =>
    intro acc
    rw [List.foldl_cons]
    refine (ih _).trans ?_
    refine ((insertion_round_perm acc x).append_right rest).trans ?_
    have hmid : (acc ++ x :: rest).Perm (x :: (acc ++ rest)) := List.perm_middle
    simpa using hmid.symm

theorem sort_perm (l : List double) : (sort l).Perm l := by
  simpa [sort] using sort_fold_perm l []

theorem sort_fold_ascending (l : List double) (hl : ∀ x ∈ l, x ≠ double.nan) :
    ∀ acc : List double, (∀ x ∈ acc, x ≠ double.nan) →
      acc.Pairwise (fun a b => double.lt b a = false) →
      (l.foldl insertion_round acc).Pairwise (fun a b => double.lt b a = false) := by
  induction l with
  | nil => intro acc _ hp; simpa using hp
  | cons x rest ih =>
    intro acc hacc hp
    rw [List.foldl_cons]
    apply ih (fun y hy => hl y (List.mem_cons_of_mem _ hy))
    · intro y hy
      rcases List.mem_cons.1 ((insertion_round_perm acc x).subset hy) with h | h
      · rw [h]; exact hl x (List.mem_cons_self _ _)
      · exact hacc y h
    · exact insertion_round_ascending acc x hacc hp

theorem ascending_unique (s t : List double) (hs : ∀ x ∈ s, x ≠ double.nan)
    (hps : s.Pairwise (fun a b => double.lt b a = false))
    (hpt : t.Pairwise (fun a b => double.lt b a = false)) (hperm : s.Perm t) : s = t := by
  have ht : ∀ x ∈ t, x ≠ double.nan := fun x hx => hs x (hperm.symm.subset hx)
  haveI : IsAntisymm double (fun a b => a = b ∨ double.lt a b = true) :=
    ⟨fun a b h1 h2 => by
      rcases h1 with h1 | h1
      · exact h1
      · rcases h2 with h2 | h2
        · exact h2.symm
        · rw [double.lt_asymm _ _ h1] at h2; cases h2⟩
  refine List.eq_of_perm_of_sorted (r := fun a b => a = b ∨ double.lt a b = true) hperm ?_ ?_
  · exact hps.imp_of_mem (fun {a b} ha hb h => double.eq_or_lt a b (hs a ha) (hs b hb) h)
  · exact hpt.imp_of_mem (fun {a b} ha hb h => double.eq_or_lt a b (ht a ha) (ht b hb) h)

/-! ## Properties of the getters, the dispatch and the registry -/

/-- C3 (as amended): for every participant whose latency history is non-empty, has
`n ≤ 7` samples and holds no NaN, `get_median_latency` returns the element at index
`n / 2` of the ascending arrangement `s` of the samples (for even `n` the
upper-middle sample), and the participant, with its history, is as it was. -/
theorem get_median_latency_sorted_middle (u : user) (s : List double)
    (hne : u.latency_history ≠ []) (_hlen : u.latency_history.length ≤ 7)
    (hnan : ∀ x ∈ u.latency_history, x ≠ double.nan)
    (hsorted : s.Pairwise (fun a b => double.lt b a = false))
    (hperm : s.Perm u.latency_history) :
    (∃ m, s[u.latency_history.length / 2]? = some m ∧ (get_median_latency u).1 = m) ∧
      (get_median_latency u).2 = u := by
  have hs : sort u.latency_history = s := by
    refine ascending_unique _ _ ?_ ?_ hsorted ((sort_perm _).trans hperm.symm)
    · intro x hx
      exact hnan x ((sort_perm _).subset hx)
    · exact sort_fold_ascending _ hnan [] (by simp) List.Pairwise.nil
  have hlen : s.length = u.latency_history.length := hperm.length_eq
  have hpos : 0 < u.latency_history.length := List.length_pos.2 hne
  have hidx : u.latency_history.length / 2 < s.length := by
    rw [hlen]; exact Nat.div_lt_self hpos (by decide)
  have hemp : u.latency_history.isEmpty = false := by
    cases h : u.latency_history with
    | nil => exact absurd h hne
    | cons _ _ => rfl
  refine ⟨⟨s[u.latency_history.length / 2], List.getElem?_eq_getElem hidx, ?_⟩, ?_⟩
  · simp only [get_median_latency, hemp, hs, hlen, Bool.false_eq_true, if_false]
    rw [List.getD_eq_getElem?_getD, List.getElem?_eq_getElem hidx]
    rfl
  · simp only [get_median_latency, hemp, Bool.false_eq_true, if_false]

/-- C3 (as amended), on the samples 10 .. 70 and on the samples 10, 20, each in a
shuffled order: the results are 40 and 20. -/
theorem get_median_latency_sorted_middle_witness :
    (get_median_latency { new_user 1 with latency_history :=
        [.finite 30, .finite 70, .finite 10, .finite 50, .finite 20, .finite 60, .finite 40] }).1
        = double.finite 40 ∧
      (get_median_latency { new_user 1 with latency_history := [.finite 20, .finite 10] }).1
        = double.finite 20 := by
  constructor
  · obtain ⟨⟨m, hm, hmed⟩, _⟩ := get_median_latency_sorted_middle
      { new_user 1 with latency_history :=
        [.finite 30, .finite 70, .finite 10, .finite 50, .finite 20, .finite 60, .finite 40] }
      [.finite 10, .finite 20, .finite 30, .finite 40, .finite 50, .finite 60, .finite 70]
      (by simp) (by decide) (by simp) (by norm_num [double.lt]) (by decide)
    rw [hmed]
    exact Option.some.inj hm.symm
  · obtain ⟨⟨m, hm, hmed⟩, _⟩ := get_median_latency_sorted_middle
      { new_user 1 with latency_history := [.finite 20, .finite 10] }
      [.finite 10, .finite 20] (by simp) (by decide) (by simp) (by norm_num [double.lt])
      (by decide)
    rw [hmed]
    exact Option.some.inj hm.symm

/-- C3 as stated fails: a new participant processes five Pong messages arriving at
the times 10, 20, 30, 40, 50 and carrying the times 9, 17, NaN, 38, 49.5.  The
history is then 1, 3, NaN, 2, 0.5 and `get_median_latency` returns 3, although in
no arrangement of these five samples with the numbers in ascending order is 3
the element at index 5 / 2. -/
theorem get_median_latency_nan_not_middle :
    (process_packets wire still 1 (empty_world true)
        [⟨.data [5, 64, 34, 0, 0, 0, 0, 0, 0], 10, []⟩,
         ⟨.data [5, 64, 49, 0, 0, 0, 0, 0, 0], 20, []⟩,
         ⟨.data [5, 127, 248, 0, 0, 0, 0, 0, 0], 30, []⟩,
         ⟨.data [5, 64, 67, 0, 0, 0, 0, 0, 0], 40, []⟩,
         ⟨.data [5, 64, 72, 192, 0, 0, 0, 0, 0], 50, []⟩]).map
      (fun w => ((w.users 1).latency_history, (get_median_latency (w.users 1)).1))
      = some ([.finite 1, .finite 3, .nan, .finite 2, .finite (1 / 2)], .finite 3) ∧
    ∀ s : List double,
      s.Perm [.finite 1, .finite 3, .nan, .finite 2, .finite (1 / 2)] →
      (s.filter (fun x => x != double.nan)).Pairwise (fun a b => double.lt b a = false) →
      s[5 / 2]? ≠ some (double.finite 3) := by
  constructor
  · have hsort : sort [.finite 1, .finite 3, .nan, .finite 2, .finite (1 / 2)] =
        [.finite (1 / 2), .finite 1, .finite 3, .nan, .finite 2] := by
      norm_num [sort, insertion_round, unguarded_linear_insert, double.lt]
    have hrun : (process_packets wire still 1 (empty_world true)
        [⟨.data [5, 64, 34, 0, 0, 0, 0, 0, 0], 10, []⟩,
         ⟨.data [5, 64, 49, 0, 0, 0, 0, 0, 0], 20, []⟩,
         ⟨.data [5, 127, 248, 0, 0, 0, 0, 0, 0], 30, []⟩,
         ⟨.data [5, 64, 67, 0, 0, 0, 0, 0, 0], 40, []⟩,
         ⟨.data [5, 64, 72, 192, 0, 0, 0, 0, 0], 50, []⟩]).map
        (fun w => (w.users 1).latency_history) =
        some [.finite 1, .finite 3, .nan, .finite 2, .finite (1 / 2)] := by
      norm_num [process_packets, process_packet, dispatch, wire, packet_type_of, case_PONG,
        read_binary64, read_be, set_user, empty_world, new_user, conn_receive, pop_latency,
        double.sub]
    generalize process_packets wire still 1 (empty_world true) _ = res at hrun ⊢
    cases res with
    | none => simp at hrun
    | some w' =>
      have hhist : (w'.users 1).latency_history =
          [.finite 1, .finite 3, .nan, .finite 2, .finite (1 / 2)] := by simpa using hrun
      have hmed : (get_median_latency (w'.users 1)).1 = double.finite 3 := by
        unfold get_median_latency
        rw [hhist]
        simp only [List.isEmpty_cons, Bool.false_eq_true, if_false]
        rw [hsort]
        rfl
      rw [Option.map_some', hmed, hhist]
  · intro s hperm hs h2
    have hlen : s.length = 5 := hperm.length_eq
    match s, hlen, hperm, hs, h2 with
    | [a, b, c, d, e], _, hperm, hs, h2 =>
      have hc : c = double.finite 3 := by simpa using h2
      subst hc
      have hnan := hperm.count_eq double.nan
      have hthree := hperm.count_eq (double.finite 3)
      have hd : d ∈ [double.finite 1, .finite 3, .nan, .finite 2, .finite (1 / 2)] :=
        hperm.subset (by simp)
      have he : e ∈ [double.finite 1, .finite 3, .nan, .finite 2, .finite (1 / 2)] :=
        hperm.subset (by simp)
      have hs' : ([double.finite 3, d, e].filter (fun x => x != double.nan)).Pairwise
          (fun a b => double.lt b a = false) := by
        have : [a, b, double.finite 3, d, e] = [a, b] ++ [double.finite 3, d, e] := rfl
        rw [this, List.filter_append, List.pairwise_append] at hs
        exact hs.2.1
      obtain ⟨hd3, he3⟩ : (d ≠ double.nan → double.lt d (double.finite 3) = false) ∧
          (e ≠ double.nan → double.lt e (double.finite 3) = false) := by
        by_cases h1 : d = double.nan <;> by_cases h2 : e = double.nan <;>
          simp_all [List.filter_cons, List.pairwise_cons]
      simp only [List.mem_cons, List.mem_singleton, List.not_mem_nil, or_false] at hd he
      rcases hd with rfl | rfl | rfl | rfl | rfl <;> rcases he with rfl | rfl | rfl | rfl | rfl <;>
        first
          | (have h := hd3 (by simp); norm_num [double.lt] at h; done)
          | (have h := he3 (by simp); norm_num [double.lt] at h; done)
          | (simp [List.count_cons] at hnan hthree; (try norm_num at hthree); omega)

/-- C5: `get_fps` on an empty history, on a history of one sample and on a history
of at least two samples `oldest, ..., newest`: the first two give no value (NaN),
the third gives `(count - 1) / (newest - oldest)` unless `oldest = newest`, where
it gives no value either. -/
theorem get_fps_value (u : user) (oldest newest : ℚ) (mid : List ℚ) :
    (get_fps { u with frame_history := [] }).1 = none ∧
      (get_fps { u with frame_history := [oldest] }).1 = none ∧
      (get_fps { u with frame_history := oldest :: (mid ++ [newest]) }).1 =
        (if oldest = newest then none
         else some ((((oldest :: (mid ++ [newest])).length : ℚ) - 1) / (newest - oldest))) := by
  refine ⟨rfl, ?_, ?_⟩
  · simp [get_fps]
  · have hlast : (oldest :: (mid ++ [newest])).getLast? = some newest := by
      rw [← List.cons_append, List.getLast?_append]
      simp
    simp only [get_fps, List.head?_cons, hlast]
    by_cases h : oldest = newest
    · simp [h]
    · simp [h]

/-- C5, on the frame history 0, 0.5, 1, 1.6: the frame rate is 3 / 1.6 = 1.875. -/
theorem get_fps_value_witness :
    (get_fps { new_user 1 with frame_history := [0, 1 / 2, 1, 8 / 5] }).1 = some (15 / 8) := by
  have h := (get_fps_value (new_user 1) 0 (8 / 5) [1 / 2, 1]).2.2
  rw [show (0 : ℚ) :: ([1 / 2, 1] ++ [8 / 5]) = [0, 1 / 2, 1, 8 / 5] from rfl] at h
  rw [h]
  norm_num

/-- C10: a Frame action processed at time `ts` by any participant, joined or not,
whose frame history is non-decreasing (no use is made of the bound `t ≤ ts`):
the pruning loop ends without reading the front of an empty history, the new
history is the previous timestamps `t` with `ts - t < 2`, in order, followed by
`ts`; it is not empty and each of its timestamps satisfies `ts - t < 2`; the
receive of the next message is armed. -/
theorem frame_window (c : codec) (api : room_api) (w : world) (self tag : Nat)
    (pin : List Nat) (ts : ℚ) (draws : List (Fin 62))
    (htag : c.packet_type tag = some PACKET_TYPE.FRAME)
    (hsorted : (w.users self).frame_history.Sorted (· ≤ ·)) :
    pop_frames ts ((w.users self).frame_history ++ [ts]) =
        some ((w.users self).frame_history.filter (fun t => decide (ts - t < 2)) ++ [ts]) ∧
      process_packet c api w self (received.data (tag :: pin)) ts draws =
        some (conn_receive (set_user w self { w.users self with
          frame_history :=
            (w.users self).frame_history.filter (fun t => decide (ts - t < 2)) ++ [ts] }) self) ∧
      (w.users self).frame_history.filter (fun t => decide (ts - t < 2)) ++ [ts] ≠ [] ∧
      ∀ t ∈ (w.users self).frame_history.filter (fun t => decide (ts - t < 2)) ++ [ts],
        ts - t < 2 := by
  have hpop := pop_frames_of_sorted ts _ hsorted
  refine ⟨hpop, ?_, by simp, ?_⟩
  · simp only [process_packet, dispatch, htag, case_FRAME, hpop]
  · intro t ht
    rcases List.mem_append.1 ht with h | h
    · simpa using (List.mem_filter.1 h).2
    · rw [List.mem_singleton.1 h]; norm_num

/-- C10, on the history 0, 0.5, 1, 1.6 with a Frame action at time 2.5: the
timestamps 0 and 0.5 are dropped. -/
theorem frame_window_witness :
    (process_packet wire still
        (set_user (empty_world true) 1 { new_user 1 with frame_history := [0, 1 / 2, 1, 8 / 5] })
        1 (received.data [15]) (5 / 2) []).map (fun w => (w.users 1).frame_history)
      = some [1, 8 / 5, 5 / 2] := by
  have h := (frame_window wire still
    (set_user (empty_world true) 1 { new_user 1 with frame_history := [0, 1 / 2, 1, 8 / 5] })
    1 15 [] (5 / 2) [] rfl (by simp [set_user]; norm_num)).2.1
  rw [h]
  simp [conn_receive, set_user, List.filter]
  norm_num

/-- C9: starting from an empty latency history, after a participant has processed
`n` well-formed Pong messages yielding the samples `x1 .. xn` (each the clock at
arrival minus the time read from the message), the messages have all been handled
and the latency history is the last `min n 7` samples in arrival order; its size is
`min n 7`, at most 7. -/
theorem latency_history_fifo (c : codec) (api : room_api) (w : world) (self : Nat)
    (msgs : List arrival) (samples : List double)
    (hempty : (w.users self).latency_history = [])
    (hpong : List.Forall₂ (fun a x => ∃ tag pin t rest, a.rx = received.data (tag :: pin) ∧
      c.packet_type tag = some PACKET_TYPE.PONG ∧ c.read_double pin = some (t, rest) ∧
      x = double.sub (double.finite a.now) t) msgs samples) :
    ∃ w', process_packets c api self w msgs = some w' ∧
      (w'.users self).latency_history =
        samples.drop (samples.length - min samples.length 7) ∧
      (w'.users self).latency_history.length = min samples.length 7 ∧
      (w'.users self).latency_history.length ≤ 7 := by
  obtain ⟨w', hrun, hhist⟩ :=
    latency_history_after_pongs c api self msgs samples hpong w (by simp [hempty])
  rw [hempty, List.nil_append] at hhist
  have e : samples.length - min samples.length 7 = samples.length - 7 := by omega
  refine ⟨w', hrun, by rw [hhist, e], ?_, ?_⟩
  · rw [hhist, List.length_drop]; omega
  · rw [hhist, List.length_drop]; omega

/-- C9, on eight Pong messages carrying the time 1 and arriving at the times
2 .. 9: the samples are 1 .. 8 and the history holds 2 .. 8. -/
theorem latency_history_fifo_witness :
    ∃ w', process_packets wire still 1 (empty_world true)
        [⟨.data [5, 63, 240, 0, 0, 0, 0, 0, 0], 2, []⟩, ⟨.data [5, 63, 240, 0, 0, 0, 0, 0, 0], 3, []⟩,
         ⟨.data [5, 63, 240, 0, 0, 0, 0, 0, 0], 4, []⟩, ⟨.data [5, 63, 240, 0, 0, 0, 0, 0, 0], 5, []⟩,
         ⟨.data [5, 63, 240, 0, 0, 0, 0, 0, 0], 6, []⟩, ⟨.data [5, 63, 240, 0, 0, 0, 0, 0, 0], 7, []⟩,
         ⟨.data [5, 63, 240, 0, 0, 0, 0, 0, 0], 8, []⟩, ⟨.data [5, 63, 240, 0, 0, 0, 0, 0, 0], 9, []⟩]
        = some w' ∧ (w'.users 1).latency_history =
          [.finite 2, .finite 3, .finite 4, .finite 5, .finite 6, .finite 7, .finite 8] := by
  obtain ⟨w', hrun, hhist, _⟩ := latency_history_fifo wire still (empty_world true) 1
    [⟨.data [5, 63, 240, 0, 0, 0, 0, 0, 0], 2, []⟩, ⟨.data [5, 63, 240, 0, 0, 0, 0, 0, 0], 3, []⟩,
     ⟨.data [5, 63, 240, 0, 0, 0, 0, 0, 0], 4, []⟩, ⟨.data [5, 63, 240, 0, 0, 0, 0, 0, 0], 5, []⟩,
     ⟨.data [5, 63, 240, 0, 0, 0, 0, 0, 0], 6, []⟩, ⟨.data [5, 63, 240, 0, 0, 0, 0, 0, 0], 7, []⟩,
     ⟨.data [5, 63, 240, 0, 0, 0, 0, 0, 0], 8, []⟩, ⟨.data [5, 63, 240, 0, 0, 0, 0, 0, 0], 9, []⟩]
    [.finite 1, .finite 2, .finite 3, .finite 4, .finite 5, .finite 6, .finite 7, .finite 8] rfl
    (by
      repeat (first
        | exact List.Forall₂.nil
        | refine List.Forall₂.cons
            ⟨5, [63, 240, 0, 0, 0, 0, 0, 0], double.finite 1, [], rfl, rfl, by decide,
              by norm_num [double.sub]⟩ ?_))
  exact ⟨w', hrun, by simpa using hhist⟩

/-- C4 (as amended): after a participant whose latency history was empty has
processed a non-empty sequence of `n` well-formed Pong messages, `get_latency`
returns the front of the latency history, which is the oldest sample still
retained: the sample at index `n - min n 7` of the sequence, that of the first Pong
while `n ≤ 7`. -/
theorem get_latency_oldest_retained (c : codec) (api : room_api) (w : world) (self : Nat)
    (msgs : List arrival) (samples : List double)
    (hempty : (w.users self).latency_history = [])
    (hpong : List.Forall₂ (fun a x => ∃ tag pin t rest, a.rx = received.data (tag :: pin) ∧
      c.packet_type tag = some PACKET_TYPE.PONG ∧ c.read_double pin = some (t, rest) ∧
      x = double.sub (double.finite a.now) t) msgs samples)
    (hne : samples ≠ []) :
    ∃ w' x, process_packets c api self w msgs = some w' ∧
      samples[samples.length - min samples.length 7]? = some x ∧
      (w'.users self).latency_history.head? = some x ∧
      (get_latency (w'.users self)).1 = x := by
  obtain ⟨w', hrun, hhist⟩ :=
    latency_history_after_pongs c api self msgs samples hpong w (by simp [hempty])
  rw [hempty, List.nil_append] at hhist
  have hpos : 0 < samples.length := List.length_pos.2 hne
  have hidx : samples.length - min samples.length 7 < samples.length := by omega
  have e : samples.length - min samples.length 7 = samples.length - 7 := by omega
  have hhead : (w'.users self).latency_history.head? =
      some (samples[samples.length - min samples.length 7]) := by
    rw [hhist, List.head?_drop, ← e, List.getElem?_eq_getElem hidx]
  refine ⟨w', _, hrun, List.getElem?_eq_getElem hidx, hhead, ?_⟩
  unfold get_latency
  cases h : (w'.users self).latency_history with
  | nil => rw [h] at hhead; simp at hhead
  | cons front rest =>
    rw [h] at hhead
    exact Option.some.inj hhead

/-- C4 (as amended), on the eight Pong messages with the samples 1 .. 8: the
latency reported is 2, the oldest of the seven retained. -/
theorem get_latency_oldest_retained_witness :
    ∃ w', process_packets wire still 1 (empty_world true)
        [⟨.data [5, 63, 240, 0, 0, 0, 0, 0, 0], 2, []⟩, ⟨.data [5, 63, 240, 0, 0, 0, 0, 0, 0], 3, []⟩,
         ⟨.data [5, 63, 240, 0, 0, 0, 0, 0, 0], 4, []⟩, ⟨.data [5, 63, 240, 0, 0, 0, 0, 0, 0], 5, []⟩,
         ⟨.data [5, 63, 240, 0, 0, 0, 0, 0, 0], 6, []⟩, ⟨.data [5, 63, 240, 0, 0, 0, 0, 0, 0], 7, []⟩,
         ⟨.data [5, 63, 240, 0, 0, 0, 0, 0, 0], 8, []⟩, ⟨.data [5, 63, 240, 0, 0, 0, 0, 0, 0], 9, []⟩]
        = some w' ∧ (get_latency (w'.users 1)).1 = double.finite 2 := by
  obtain ⟨w', x, hrun, hx, _, hlat⟩ := get_latency_oldest_retained wire still
    (empty_world true) 1
    [⟨.data [5, 63, 240, 0, 0, 0, 0, 0, 0], 2, []⟩, ⟨.data [5, 63, 240, 0, 0, 0, 0, 0, 0], 3, []⟩,
     ⟨.data [5, 63, 240, 0, 0, 0, 0, 0, 0], 4, []⟩, ⟨.data [5, 63, 240, 0, 0, 0, 0, 0, 0], 5, []⟩,
     ⟨.data [5, 63, 240, 0, 0, 0, 0, 0, 0], 6, []⟩, ⟨.data [5, 63, 240, 0, 0, 0, 0, 0, 0], 7, []⟩,
     ⟨.data [5, 63, 240, 0, 0, 0, 0, 0, 0], 8, []⟩, ⟨.data [5, 63, 240, 0, 0, 0, 0, 0, 0], 9, []⟩]
    [.finite 1, .finite 2, .finite 3, .finite 4, .finite 5, .finite 6, .finite 7, .finite 8] rfl
    (by
      repeat (first
        | exact List.Forall₂.nil
        | refine List.Forall₂.cons
            ⟨5, [63, 240, 0, 0, 0, 0, 0, 0], double.finite 1, [], rfl, rfl, by decide,
              by norm_num [double.sub]⟩ ?_))
    (by simp)
  refine ⟨w', hrun, ?_⟩
  rw [hlat]
  exact Option.some.inj hx.symm

/-- C4 as stated fails: a new participant processes two Pong messages, the first
yielding the sample 10 and the second the sample 20.  The history is then 10, 20,
its back (the sample of the last Pong) is 20, and `get_latency` returns 10. -/
theorem get_latency_not_most_recent :
    (process_packets wire still 1 (empty_world true)
        [⟨.data [5, 63, 240, 0, 0, 0, 0, 0, 0], 11, []⟩,
         ⟨.data [5, 63, 240, 0, 0, 0, 0, 0, 0], 21, []⟩]).map
      (fun w => ((w.users 1).latency_history, (w.users 1).latency_history.getLast?,
        (get_latency (w.users 1)).1))
      = some ([.finite 10, .finite 20], some (.finite 20), .finite 10) := by
  simp [process_packets, process_packet, dispatch, wire, packet_type_of, case_PONG,
    read_binary64, read_be, set_user, empty_world, new_user, conn_receive, pop_latency,
    get_latency, double.sub]
  norm_num

theorem lock_none_of_not_joined (w : world) (self : Nat) (h : joined w self = false) :
    lock w (w.users self).my_room = none := by
  unfold joined at h
  cases hl : lock w (w.users self).my_room with
  | none => rfl
  | some r => rw [hl] at h; simp at h

/-- C8: for a participant that is not joined and a message whose tag is one of
CONTROLLERS, NAME, MESSAGE, LAG, AUTOLAG, START, INPUT_DATA, INPUT_FILL,
CONTROLLER_MAP, GOLF, SYNC_REQ, SYNC_RES, HIA, whatever the payload,
`process_packet` leaves every participant and every session as they were, and the
only call on a connection is the arming of the next receive: nothing is sent and
nothing is closed. -/
theorem room_scoped_noop_until_joined (c : codec) (api : room_api) (w : world)
    (self tag : Nat) (pin : List Nat) (now : ℚ) (draws : List (Fin 62)) (t : PACKET_TYPE)
    (hjoined : joined w self = false)
    (htag : c.packet_type tag = some t)
    (ht : t ∈ [PACKET_TYPE.CONTROLLERS, PACKET_TYPE.NAME, PACKET_TYPE.MESSAGE,
      PACKET_TYPE.LAG, PACKET_TYPE.AUTOLAG, PACKET_TYPE.START, PACKET_TYPE.INPUT_DATA,
      PACKET_TYPE.INPUT_FILL, PACKET_TYPE.CONTROLLER_MAP, PACKET_TYPE.GOLF,
      PACKET_TYPE.SYNC_REQ, PACKET_TYPE.SYNC_RES, PACKET_TYPE.HIA]) :
    process_packet c api w self (received.data (tag :: pin)) now draws =
      some { w with trace := w.trace ++ [event.receive self] } := by
  have hl := lock_none_of_not_joined w self hjoined
  simp only [List.mem_cons, List.mem_singleton, List.not_mem_nil, or_false] at ht
  rcases ht with h | h | h | h | h | h | h | h | h | h | h | h | h <;> subst h <;>
    simp only [process_packet, dispatch, htag, case_CONTROLLERS, case_NAME, case_MESSAGE,
      case_LAG, case_AUTOLAG, case_START, case_INPUT_DATA, case_INPUT_FILL,
      case_CONTROLLER_MAP, case_GOLF, case_SYNC_REQ, case_SYNC_RES, case_HIA, hl,
      conn_receive]

/-- C8, on a new participant and an INPUT_DATA message with a payload of three
bytes, and on a HIA message with no payload at all. -/
theorem room_scoped_noop_until_joined_witness :
    process_packet wire still (empty_world true) 1 (received.data [13, 7, 7, 7]) 0 [] =
        some { empty_world true with trace := [event.receive 1] } ∧
      process_packet wire still (empty_world true) 1 (received.data [20]) 0 [] =
        some { empty_world true with trace := [event.receive 1] } :=
  ⟨room_scoped_noop_until_joined wire still (empty_world true) 1 13 [7, 7, 7] 0 []
      PACKET_TYPE.INPUT_DATA rfl rfl (by decide),
    room_scoped_noop_until_joined wire still (empty_world true) 1 20 [] 0 []
      PACKET_TYPE.HIA rfl rfl (by decide)⟩

/-- C6 (as amended): for every non-empty inbound message whose first byte is not
one of the tags handled by the dispatch, `process_packet` changes no participant
and no session, does not close the connection, and arms the receive of the next
message. -/
theorem unhandled_tag_is_skipped (c : codec) (api : room_api) (w : world)
    (self tag : Nat) (pin : List Nat) (now : ℚ) (draws : List (Fin 62))
    (htag : ∀ t ∈ [PACKET_TYPE.JOIN, PACKET_TYPE.PING, PACKET_TYPE.PONG,
      PACKET_TYPE.CONTROLLERS, PACKET_TYPE.NAME, PACKET_TYPE.MESSAGE, PACKET_TYPE.LAG,
      PACKET_TYPE.AUTOLAG, PACKET_TYPE.START, PACKET_TYPE.INPUT_DATA,
      PACKET_TYPE.INPUT_FILL, PACKET_TYPE.FRAME, PACKET_TYPE.CONTROLLER_MAP,
      PACKET_TYPE.GOLF, PACKET_TYPE.SYNC_REQ, PACKET_TYPE.SYNC_RES, PACKET_TYPE.HIA],
      c.packet_type tag ≠ some t) :
    process_packet c api w self (received.data (tag :: pin)) now draws =
      some { w with trace := w.trace ++ [event.receive self] } := by
  cases h : c.packet_type tag with
  | none => simp only [process_packet, dispatch, h, conn_receive]
  | some t =>
    cases t <;>
      first
        | exact absurd h (htag _ (by decide))
        | simp only [process_packet, dispatch, h, conn_receive]

/-- C6 (as amended), on a message whose only byte is 200, which is no tag, and on
a message with the tag QUIT. -/
theorem unhandled_tag_is_skipped_witness :
    process_packet wire still (empty_world true) 1 (received.data [200]) 0 [] =
        some { empty_world true with trace := [event.receive 1] } ∧
      process_packet wire still (empty_world true) 1 (received.data [9, 0, 0, 0, 1]) 0 [] =
        some { empty_world true with trace := [event.receive 1] } :=
  ⟨unhandled_tag_is_skipped wire still (empty_world true) 1 200 [] 0 [] (by decide),
    unhandled_tag_is_skipped wire still (empty_world true) 1 9 [0, 0, 0, 1] 0 [] (by decide)⟩

/-- C6 as stated fails: a message whose only byte is 200, which is none of the
handled tags, leaves the connection open (the trace holds no `close`) and arms the
receive of the next message. -/
theorem unknown_tag_does_not_close :
    wire.packet_type 200 = none ∧
      (process_packet wire still (empty_world true) 1 (received.data [200]) 0 []).map
        (fun w => w.trace) = some [event.receive 1] := by
  constructor
  · rfl
  · rfl

theorem find?_map_same_id (l : List room) (key : String) (g : room → room)
    (hg : ∀ x, (g x).id = x.id) :
    (l.map g).find? (fun x => x.id == key) = (l.find? (fun x => x.id == key)).map g := by
  induction l with
  | nil => rfl
  | cons x rest ih =>
    simp only [List.map_cons, List.find?_cons, hg]
    cases h : x.id == key with
    | true => rfl
    | false => exact ih

theorem send_hia_fold (hia : Nat) (users : List Nat) : ∀ w : world,
    (users.foldl (fun w u => send_hia w u hia) w).rooms = w.rooms ∧
      (users.foldl (fun w u => send_hia w u hia) w).trace = w.trace ++ users.map
        (fun u => event.send u [field.type PACKET_TYPE.HIA, field.var hia] true) ∧
      ∀ a, (users.foldl (fun w u => send_hia w u hia) w).users a =
        if a ∈ users then
          { w.users a with pout := [field.type PACKET_TYPE.HIA, field.var hia] }
        else w.users a := by
  induction users with
  | nil => intro w; simp
  | cons u rest ih =>
    intro w
    obtain ⟨h1, h2, h3⟩ := ih (send_hia w u hia)
    simp only [List.foldl_cons]
    refine ⟨h1, ?_, ?_⟩
    · rw [h2]; simp [send_hia, conn_send, set_user]
    · intro a
      rw [h3]
      by_cases hau : a = u
      · subst hau
        simp [send_hia, conn_send, set_user]
      · by_cases har : a ∈ rest
        · simp [send_hia, conn_send, set_user, hau, har]
        · simp [send_hia, conn_send, set_user, hau, har]

/-- C2: a joined participant (its session is `r`) sends a HIA message whose payload
reads as the rate `q`.  The rate considered is `min 240 q`, at most 240.  The
change is accepted exactly when the session is not started, or both its current
rate and `min 240 q` are nonzero.  On acceptance the rate of the session becomes
`min 240 q`, no other session changes, and one HIA message carrying `min 240 q`
is sent to each participant of the session in join order, the requester
included; on rejection no session and no participant changes and nothing is
sent.  In both cases the receive of the next message is armed. -/
theorem hia_negotiation (c : codec) (api : room_api) (w : world) (self tag : Nat)
    (pin rest : List Nat) (now : ℚ) (draws : List (Fin 62)) (r : room) (q : Nat)
    (htag : c.packet_type tag = some PACKET_TYPE.HIA)
    (hroom : lock w (w.users self).my_room = some r)
    (hread : c.read_var pin = some (q, rest)) :
    min 240 q ≤ 240 ∧
      ∃ w', process_packet c api w self (received.data (tag :: pin)) now draws = some w' ∧
        if r.started = false ∨ (r.hia ≠ 0 ∧ min 240 q ≠ 0) then
          w'.rooms = w.rooms.map
              (fun x => if x.id == r.id then { x with hia := min 240 q } else x) ∧
            lock w' (w'.users self).my_room = some { r with hia := min 240 q } ∧
            w'.trace = w.trace ++ r.users.map (fun u => event.send u
              [field.type PACKET_TYPE.HIA, field.var (min 240 q)] true) ++ [event.receive self] ∧
            ∀ a, w'.users a =
              if a ∈ r.users then
                { w.users a with pout := [field.type PACKET_TYPE.HIA, field.var (min 240 q)] }
              else w.users a
        else w' = { w with trace := w.trace ++ [event.receive self] } := by
  refine ⟨Nat.min_le_left _ _, ?_⟩
  by_cases hacc : r.started = false ∨ (r.hia ≠ 0 ∧ min 240 q ≠ 0)
  · have hcond : (!r.started || (r.hia != 0 && min 240 q != 0)) = true := by
      rcases hacc with h | ⟨h1, h2⟩
      · simp [h]
      · simp [h1, h2]
    obtain ⟨h1, h2, h3⟩ := send_hia_fold (min 240 q) r.users (room.set_hia w r.id (min 240 q))
    refine ⟨conn_receive (List.foldl (fun w u => send_hia w u (min 240 q))
      (room.set_hia w r.id (min 240 q)) r.users) self, ?_, ?_⟩
    · simp only [process_packet, dispatch, htag, case_HIA, hroom, hread, hcond, if_true]
    · rw [if_pos hacc]
      have hR : (conn_receive (List.foldl (fun w u => send_hia w u (min 240 q))
          (room.set_hia w r.id (min 240 q)) r.users) self).rooms = w.rooms.map
            (fun x => if x.id == r.id then { x with hia := min 240 q } else x) := by
        show (List.foldl (fun w u => send_hia w u (min 240 q))
          (room.set_hia w r.id (min 240 q)) r.users).rooms = _
        rw [h1]; rfl
      refine ⟨hR, ?_, ?_, ?_⟩
      · have hmy : ((conn_receive (List.foldl (fun w u => send_hia w u (min 240 q))
            (room.set_hia w r.id (min 240 q)) r.users) self).users self).my_room =
            (w.users self).my_room := by
          show ((List.foldl (fun w u => send_hia w u (min 240 q))
            (room.set_hia w r.id (min 240 q)) r.users).users self).my_room = _
          rw [h3]
          split <;> rfl
        rw [hmy]
        cases hk : (w.users self).my_room with
        | none => rw [hk] at hroom; simp [lock] at hroom
        | some key =>
          rw [hk] at hroom
          have hid : (r.id == key) = true := by
            have := List.find?_some hroom
            simpa using this
          show List.find? (fun x : room => x.id == key) (conn_receive (List.foldl
            (fun w u => send_hia w u (min 240 q)) (room.set_hia w r.id (min 240 q)) r.users)
            self).rooms = _
          rw [hR, find?_map_same_id _ _ _ (by intro x; split <;> rfl)]
          have hroom2 : List.find? (fun x => x.id == key) w.rooms = some r := hroom
          rw [hroom2]
          simp
      · show (List.foldl (fun w u => send_hia w u (min 240 q))
          (room.set_hia w r.id (min 240 q)) r.users).trace ++ [event.receive self] = _
        rw [h2]; rfl
      · intro a
        show (List.foldl (fun w u => send_hia w u (min 240 q))
          (room.set_hia w r.id (min 240 q)) r.users).users a = _
        rw [h3]; rfl
  · have hcond : (!r.started || (r.hia != 0 && min 240 q != 0)) = false := by
      rw [not_or, not_and_or] at hacc
      obtain ⟨hs, h⟩ := hacc
      have hs' : r.started = true := by simpa using hs
      rcases h with h | h
      · have : r.hia = 0 := by simpa using h
        simp [hs', this]
      · have : min 240 q = 0 := by simpa using h
        simp [hs', this]
    refine ⟨conn_receive w self, ?_, ?_⟩
    · simp only [process_packet, dispatch, htag, case_HIA, hroom, hread, hcond]
      rfl
    · rw [if_neg hacc]; rfl

/-- C2, in the session of `three_joined`: the request 30 made by the participant at
address 1 while the session is not started and its rate is 0 is accepted and sent
to the three participants; the request 0 made while the session is started at
rate 30 is rejected, the rate stays 30 and nothing is sent. -/
theorem hia_negotiation_witness :
    (process_packet wire still (three_joined false 0 0 0) 1 (received.data [20, 30]) 0 []).map
        (fun w => (w.rooms.map (fun r => r.hia), w.trace)) =
      some ([30],
        [event.send 1 [field.type PACKET_TYPE.HIA, field.var 30] true,
         event.send 2 [field.type PACKET_TYPE.HIA, field.var 30] true,
         event.send 3 [field.type PACKET_TYPE.HIA, field.var 30] true,
         event.receive 1]) ∧
    (process_packet wire still (three_joined true 30 0 0) 1 (received.data [20, 0]) 0 []).map
        (fun w => (w.rooms.map (fun r => r.hia), w.trace)) =
      some ([30], [event.receive 1]) := by
  constructor
  · obtain ⟨_, w', hrun, hw⟩ := hia_negotiation wire still (three_joined false 0 0 0) 1 20 [30] [] 0 []
      { id := "game", creation_timestamp := 0, users := [1, 2, 3], started := false, hia := 0,
        autolag := false, golf := false } 30 rfl rfl rfl
    rw [if_pos (by decide)] at hw
    obtain ⟨hrooms, _, htrace, _⟩ := hw
    rw [hrun, Option.map_some', hrooms, htrace]
    rfl
  · obtain ⟨_, w', hrun, hw⟩ := hia_negotiation wire still (three_joined true 30 0 0) 1 20 [0] [] 0 []
      { id := "game", creation_timestamp := 0, users := [1, 2, 3], started := true, hia := 30,
        autolag := false, golf := false } 0 rfl rfl rfl
    rw [if_neg (by decide)] at hw
    rw [hrun, Option.map_some', hw]
    rfl

theorem send_input_loop_iff (w : world) (R S : Nat) (users : List Nat) :
    send_input_loop w R S users = true ↔
      ∀ P ∈ users, (w.users P).id ≠ (w.users R).id → is_spectator (w.users P) = false →
        (w.users S).input_received ≤ (w.users P).input_received := by
  induction users with
  | nil => simp [send_input_loop]
  | cons u rest ih =>
    simp only [send_input_loop, List.mem_cons, forall_eq_or_imp]
    by_cases h1 : (w.users u).id = (w.users R).id
    · simp [h1, ih]
    · by_cases h2 : is_spectator (w.users u) = true
      · simp [h1, h2, ih]
      · by_cases h3 : (w.users u).input_received < (w.users S).input_received
        · simp only [beq_iff_eq, h1, if_false, h2, h3, if_true]
          constructor
          · intro h; exact absurd h (by simp)
          · intro h
            have := h.1 h1 trivial
            omega
        · have h2f : is_spectator (w.users u) = false := by simpa using h2
          simp only [beq_iff_eq, h1, if_false, h2f, h3, Bool.false_eq_true]
          rw [ih]
          constructor
          · intro h; exact ⟨fun _ _ => by omega, h⟩
          · intro h; exact h.2

theorem send_input_result (w : world) (R S : Nat) (p : packet) (r : room)
    (hroom : lock w (w.users R).my_room = some r) (hhia : r.hia = 0) :
    send_input w R S p = some
      { w with trace := w.trace ++ event.send R p false ::
          (if send_input_loop w R S r.users then [event.flush R] else []) } := by
  have hl : lock (conn_send w R p false) ((conn_send w R p false).users R).my_room = some r :=
    hroom
  have hloop : send_input_loop (conn_send w R p false) R S r.users =
      send_input_loop w R S r.users := by
    induction r.users with
    | nil => rfl
    | cons u rest ih => simp only [send_input_loop, ih]; rfl
  simp only [send_input, hl, hhia, hloop]
  cases send_input_loop w R S r.users <;> simp [conn_send, conn_flush]

/-- C1: in a session `r` whose aggregation is disabled, where distinct participants
have distinct identities, `send_input` called on a participant `R` of the session
for a sender `S` appends the packet to the outbound buffer of `R` without flushing
it, and then flushes that buffer exactly when every participant `P` of the session
other than `R` that is not a spectator has `P.input_received ≥ S.input_received`,
the counter of `S` being read when the call is made (in `case INPUT_DATA`, after
the increment).  No participant and no session changes. -/
theorem send_input_flow_control (w : world) (R S : Nat) (p : packet) (r : room)
    (hroom : lock w (w.users R).my_room = some r)
    (hhia : r.hia = 0)
    (hid : ∀ P ∈ r.users, (w.users P).id = (w.users R).id → P = R) :
    ∃ w', send_input w R S p = some w' ∧ w'.users = w.users ∧ w'.rooms = w.rooms ∧
      w'.trace = w.trace ++ event.send R p false ::
        (if ∀ P ∈ r.users, P ≠ R → is_spectator (w.users P) = false →
            (w.users S).input_received ≤ (w.users P).input_received
         then [event.flush R] else []) := by
  refine ⟨_, send_input_result w R S p r hroom hhia, rfl, rfl, ?_⟩
  have hiff : send_input_loop w R S r.users = true ↔
      ∀ P ∈ r.users, P ≠ R → is_spectator (w.users P) = false →
        (w.users S).input_received ≤ (w.users P).input_received := by
    rw [send_input_loop_iff]
    constructor
    · intro h P hP hne hsp
      exact h P hP (fun e => hne (hid P hP e)) hsp
    · intro h P hP hne hsp
      exact h P hP (fun e => hne (by rw [e])) hsp
  by_cases hall : ∀ P ∈ r.users, P ≠ R → is_spectator (w.users P) = false →
      (w.users S).input_received ≤ (w.users P).input_received
  · simp only [hiff.2 hall, if_true, if_pos hall]
  · have : send_input_loop w R S r.users = false := by
      cases h : send_input_loop w R S r.users with
      | false => rfl
      | true => exact absurd (hiff.1 h) hall
    simp only [this, if_neg hall]
    rfl

theorem send_input_loop_trace (w : world) (t : List event) (R S : Nat) (users : List Nat) :
    send_input_loop { w with trace := t } R S users = send_input_loop w R S users := by
  induction users with
  | nil => rfl
  | cons u rest ih => simp only [send_input_loop, ih]

theorem input_data_loop_trace (S : Nat) (p : packet) (r : room) (w : world)
    (hhia : r.hia = 0)
    (hmember : ∀ R ∈ r.users, R ≠ S → lock w (w.users R).my_room = some r) :
    ∀ l : List Nat, (∀ R ∈ l, R ∈ r.users) → ∀ t : List event,
      input_data_loop S p { w with trace := t } l = some
        { w with
          trace := t ++ (l.filter (fun R => R != S)).flatMap (fun R => event.send R p false ::
            (if send_input_loop w R S r.users then [event.flush R] else [])) } := by
  intro l
  induction l with
  | nil => intro _ t; simp [input_data_loop]
  | cons u rest ih =>
    intro hl t
    have hrest : ∀ R ∈ rest, R ∈ r.users := fun R hR => hl R (List.mem_cons_of_mem _ hR)
    by_cases hu : u = S
    · subst hu
      simp only [input_data_loop, beq_self_eq_true, if_true]
      rw [ih hrest t]
      simp
    · have hstep := send_input_result { w with trace := t } u S p r
        (hmember u (hl u (List.mem_cons_self _ _)) hu) hhia
      have hbeq : (u == S) = false := by simpa using hu
      have hbne : (u != S) = true := by simpa using hu
      simp only [input_data_loop, hbeq, hstep, send_input_loop_trace]
      rw [if_neg (by simp), ih hrest]
      simp [List.filter_cons, hbne]

/-- The whole of `case INPUT_DATA` in a session `r` whose aggregation is disabled
and whose participants all refer to it: the counter of the sender `S` is
incremented modulo 2 ^ 32, the payload is stored, and each participant of the
session other than `S` is handed the packet by `send_input`, in join order, with
the counter of `S` already incremented. -/
theorem input_data_relay (c : codec) (api : room_api) (w : world) (S tag : Nat)
    (pin : List Nat) (now : ℚ) (draws : List (Fin 62)) (r : room)
    (htag : c.packet_type tag = some PACKET_TYPE.INPUT_DATA)
    (hroom : lock w (w.users S).my_room = some r)
    (hhia : r.hia = 0)
    (hmember : ∀ R ∈ r.users, R ≠ S → lock w (w.users R).my_room = some r) :
    ∃ w', process_packet c api w S (received.data (tag :: pin)) now draws = some w' ∧
      w'.rooms = w.rooms ∧
      w'.users = Function.update w.users S { w.users S with
        input_received := ((w.users S).input_received + 1) % 2 ^ 32
        current_input := pin
        pout := [field.type PACKET_TYPE.INPUT_DATA, field.u32 (w.users S).id, field.bytes pin] } ∧
      w'.trace = w.trace ++
        (r.users.filter (fun R => R != S)).flatMap (fun R =>
          event.send R
              [field.type PACKET_TYPE.INPUT_DATA, field.u32 (w.users S).id, field.bytes pin] false ::
            (if send_input_loop w' R S r.users then [event.flush R] else [])) ++
        [event.receive S] := by
  have hloop := input_data_loop_trace S
    [field.type PACKET_TYPE.INPUT_DATA, field.u32 (w.users S).id, field.bytes pin] r
    (set_user w S { w.users S with
      input_received := ((w.users S).input_received + 1) % 2 ^ 32
      current_input := pin
      pout := [field.type PACKET_TYPE.INPUT_DATA, field.u32 (w.users S).id, field.bytes pin] })
    hhia
    (by
      intro R hR hne
      have e := hmember R hR hne
      simpa [set_user, Function.update_noteq hne, lock] using e)
    r.users (fun _ h => h) w.trace
  have key : process_packet c api w S (received.data (tag :: pin)) now draws =
      some (conn_receive { set_user w S { w.users S with
          input_received := ((w.users S).input_received + 1) % 2 ^ 32
          current_input := pin
          pout := [field.type PACKET_TYPE.INPUT_DATA, field.u32 (w.users S).id,
            field.bytes pin] } with
        trace := w.trace ++ (r.users.filter (fun R => R != S)).flatMap (fun R =>
          event.send R
              [field.type PACKET_TYPE.INPUT_DATA, field.u32 (w.users S).id, field.bytes pin] false ::
            (if send_input_loop (set_user w S { w.users S with
                input_received := ((w.users S).input_received + 1) % 2 ^ 32
                current_input := pin
                pout := [field.type PACKET_TYPE.INPUT_DATA, field.u32 (w.users S).id,
                  field.bytes pin] }) R S r.users then [event.flush R] else [])) } S) := by
    simp only [process_packet, dispatch, htag, case_INPUT_DATA, hroom, hhia, beq_self_eq_true,
      if_true, set_user, Function.update_same, Function.update_idem]
    simp only [set_user] at hloop
    rw [hloop]
  refine ⟨_, key, rfl, ?_, ?_⟩
  · simp [conn_receive, set_user]
  · simp only [conn_receive, send_input_loop_trace]

/-- C1, in the session of `three_joined` (players at 1 and 3, spectator at 2, aggregation
disabled), the participant at 1 being the sender with `input_received = 5`.  With
the player at 3 at `input_received = 3`: the recipient 3 is flushed at once, the
recipient 2 is not.  With the player at 3 at `input_received = 5`: the recipient 2
is flushed.  And the INPUT_DATA message that takes the sender from 4 to 5 produces
exactly these calls. -/
theorem send_input_flow_control_witness :
    (send_input (three_joined false 0 5 3) 3 1 [field.type PACKET_TYPE.INPUT_DATA]).map
        (fun w => w.trace) =
      some [event.send 3 [field.type PACKET_TYPE.INPUT_DATA] false, event.flush 3] ∧
    (send_input (three_joined false 0 5 3) 2 1 [field.type PACKET_TYPE.INPUT_DATA]).map
        (fun w => w.trace) =
      some [event.send 2 [field.type PACKET_TYPE.INPUT_DATA] false] ∧
    (send_input (three_joined false 0 5 5) 2 1 [field.type PACKET_TYPE.INPUT_DATA]).map
        (fun w => w.trace) =
      some [event.send 2 [field.type PACKET_TYPE.INPUT_DATA] false, event.flush 2] ∧
    (process_packet wire still (three_joined false 0 4 3) 1 (received.data [13, 9]) 0 []).map
        (fun w => ((w.users 1).input_received, w.trace)) =
      some (5,
        [event.send 2 [field.type PACKET_TYPE.INPUT_DATA, field.u32 1, field.bytes [9]] false,
         event.send 3 [field.type PACKET_TYPE.INPUT_DATA, field.u32 1, field.bytes [9]] false,
         event.flush 3, event.receive 1]) := by
  refine ⟨?_, ?_, ?_, ?_⟩
  · obtain ⟨w', hrun, _, _, htrace⟩ := send_input_flow_control (three_joined false 0 5 3) 3 1
      [field.type PACKET_TYPE.INPUT_DATA]
      { id := "game", creation_timestamp := 0, users := [1, 2, 3], started := false, hia := 0,
        autolag := false, golf := false } rfl rfl (by decide)
    rw [hrun, Option.map_some', htrace, if_pos (by decide)]
    rfl
  · obtain ⟨w', hrun, _, _, htrace⟩ := send_input_flow_control (three_joined false 0 5 3) 2 1
      [field.type PACKET_TYPE.INPUT_DATA]
      { id := "game", creation_timestamp := 0, users := [1, 2, 3], started := false, hia := 0,
        autolag := false, golf := false } rfl rfl (by decide)
    rw [hrun, Option.map_some', htrace, if_neg (by decide)]
    rfl
  · obtain ⟨w', hrun, _, _, htrace⟩ := send_input_flow_control (three_joined false 0 5 5) 2 1
      [field.type PACKET_TYPE.INPUT_DATA]
      { id := "game", creation_timestamp := 0, users := [1, 2, 3], started := false, hia := 0,
        autolag := false, golf := false } rfl rfl (by decide)
    rw [hrun, Option.map_some', htrace, if_pos (by decide)]
    rfl
  · rfl

/-! ## Lemmas on the registry -/

theorem ALPHABET_at_isAlphanum : ∀ d : Fin 62, (ALPHABET_at d).isAlphanum = true := by
  decide

theorem get_random_room_id_cons (w : world) (d0 d1 d2 d3 d4 : Fin 62) (rest : List (Fin 62)) :
    server.get_random_room_id w (d0 :: d1 :: d2 :: d3 :: d4 :: rest) =
      if w.rooms.any (fun r => r.id == String.mk
          [ALPHABET_at d0, ALPHABET_at d1, ALPHABET_at d2, ALPHABET_at d3, ALPHABET_at d4])
      then server.get_random_room_id w rest
      else some (String.mk
          [ALPHABET_at d0, ALPHABET_at d1, ALPHABET_at d2, ALPHABET_at d3, ALPHABET_at d4]) := by
  rw [server.get_random_room_id]

theorem get_random_room_id_sound (w : world) : ∀ (n : Nat) (draws : List (Fin 62)),
    draws.length ≤ n → ∀ id, server.get_random_room_id w draws = some id →
      id.length = 5 ∧ (∀ ch ∈ id.data, ch.isAlphanum = true) ∧ ∀ r ∈ w.rooms, r.id ≠ id := by
  intro n
  induction n with
  | zero =>
    intro draws hlen id h
    have : draws = [] := List.length_eq_zero.1 (Nat.le_zero.1 hlen)
    subst this
    simp [server.get_random_room_id] at h
  | succ n ih =>
    intro draws hlen id h
    match draws, hlen, h with
    | d0 :: d1 :: d2 :: d3 :: d4 :: rest, hlen, h =>
      rw [get_random_room_id_cons] at h
      split at h
      · exact ih rest (by simp only [List.length_cons] at hlen; omega) id h
      · rename_i hfree
        have hid := Option.some.inj h
        subst hid
        refine ⟨rfl, ?_, ?_⟩
        · intro ch hch
          simp only [List.mem_cons, List.mem_singleton, List.not_mem_nil, or_false] at hch
          rcases hch with h | h | h | h | h <;> rw [h] <;> exact ALPHABET_at_isAlphanum _
        · intro r hr hrid
          apply hfree
          rw [List.any_eq_true]
          exact ⟨r, hr, by simp [hrid]⟩
    | [], _, h => simp [server.get_random_room_id] at h
    | [_], _, h => simp [server.get_random_room_id] at h
    | [_, _], _, h => simp [server.get_random_room_id] at h
    | [_, _, _], _, h => simp [server.get_random_room_id] at h
    | [_, _, _, _], _, h => simp [server.get_random_room_id] at h

theorem get_random_room_id_returns (w : world) : ∀ (n : Nat) (pre cand post : List (Fin 62)),
    pre.length = 5 * n → cand.length = 5 →
    (∀ r ∈ w.rooms, r.id ≠ String.mk (cand.map ALPHABET_at)) →
      ∃ id, server.get_random_room_id w (pre ++ cand ++ post) = some id := by
  intro n
  induction n with
  | zero =>
    intro pre cand post hpre hcand hfree
    have : pre = [] := List.length_eq_zero.1 (by simpa using hpre)
    subst this
    match cand, hcand with
    | [d0, d1, d2, d3, d4], _ =>
      simp only [List.nil_append, List.cons_append, get_random_room_id_cons]
      split
      · rename_i hany
        rw [List.any_eq_true] at hany
        obtain ⟨r, hr, hrid⟩ := hany
        exact absurd (by simpa using hrid) (hfree r hr)
      · exact ⟨_, rfl⟩
  | succ n ih =>
    intro pre cand post hpre hcand hfree
    match pre, hpre with
    | d0 :: d1 :: d2 :: d3 :: d4 :: rest, hpre =>
      simp only [List.cons_append, get_random_room_id_cons]
      split
      · exact ih rest cand post (by simp only [List.length_cons] at hpre; omega) hcand hfree
      · exact ⟨_, rfl⟩
    | [], hpre => simp at hpre
    | [_], hpre => simp at hpre; omega
    | [_, _], hpre => simp at hpre; omega
    | [_, _, _], hpre => simp at hpre; omega
    | [_, _, _, _], hpre => simp at hpre; omega

theorem on_user_join_resolved (api : room_api) (w : world) (user : Nat) (id : String)
    (now : ℚ) :
    ((∃ r ∈ w.rooms, r.id = id) →
        (room.on_user_join
          (if (w.rooms.find? (fun r => r.id == id)).isNone then
            { w with rooms := w.rooms ++ [room.create api id now] } else w) id user).rooms =
          w.rooms.map (fun r => if r.id == id then { r with users := r.users ++ [user] } else r)) ∧
      ((∀ r ∈ w.rooms, r.id ≠ id) →
        (room.on_user_join
          (if (w.rooms.find? (fun r => r.id == id)).isNone then
            { w with rooms := w.rooms ++ [room.create api id now] } else w) id user).rooms =
          w.rooms ++ [{ room.create api id now with users := [user] }]) ∧
      ((room.on_user_join
          (if (w.rooms.find? (fun r => r.id == id)).isNone then
            { w with rooms := w.rooms ++ [room.create api id now] } else w) id user).users
            user).my_room = some id := by
  refine ⟨?_, ?_, ?_⟩
  · rintro ⟨r, hr, hrid⟩
    have hsome : (w.rooms.find? (fun r => r.id == id)).isNone = false := by
      cases h : w.rooms.find? (fun r => r.id == id) with
      | some _ => rfl
      | none =>
        rw [List.find?_eq_none] at h
        exact absurd (by simpa using hrid) (h r hr)
    simp only [hsome, Bool.false_eq_true, if_false]
    rfl
  · intro hfree
    have hnone : (w.rooms.find? (fun r => r.id == id)).isNone = true := by
      have : w.rooms.find? (fun r => r.id == id) = none := by
        rw [List.find?_eq_none]
        intro r hr
        simpa using hfree r hr
      rw [this]; rfl
    simp only [hnone, if_true, room.on_user_join, set_room, set_room_state, conn_send, set_user,
      List.map_append, List.map_cons, List.map_nil]
    congr 1
    · conv_rhs => rw [← List.map_id w.rooms]
      apply List.map_congr_left
      intro r hr
      have : (r.id == id) = false := by simpa using hfree r hr
      simp [this]
    · simp [room.create]
  · split <;> simp [room.on_user_join, set_room, set_room_state, conn_send, set_user]

/-- C7: `server::on_user_join` for a requested identifier `s`.  The call returns
when multi-session mode is off, when `s` is not empty, and otherwise as soon as
one of the successive groups of five draws spells an identifier that no live
session has.  Whenever it returns, the participant has been added to the session
with an identifier `id` that is "" when multi-session mode is off, `s` when the
mode is on and `s` is not empty, and otherwise a string of exactly 5 characters of
`[A-Za-z0-9]` that no session live before the call has.  A session already live
under `id` is kept, with its state, and receives the participant at the end of its
participants; when there is none, one session is created under `id` with the
participant alone; the other sessions are as they were. -/
theorem on_user_join_session (api : room_api) (w : world) (user : Nat) (s : String)
    (now : ℚ) (draws : List (Fin 62)) :
    ((w.multiroom = false ∨ s ≠ "" ∨ ∃ pre cand post, draws = pre ++ cand ++ post ∧
          pre.length % 5 = 0 ∧ cand.length = 5 ∧
          ∀ r ∈ w.rooms, r.id ≠ String.mk (cand.map ALPHABET_at)) →
        ∃ w', server.on_user_join api w user s now draws = some w') ∧
      ∀ w', server.on_user_join api w user s now draws = some w' →
        ∃ id : String,
          (w.multiroom = false → id = "") ∧
          (w.multiroom = true → s ≠ "" → id = s) ∧
          (w.multiroom = true → s = "" →
            id.length = 5 ∧ (∀ ch ∈ id.data, ch.isAlphanum = true) ∧
              ∀ r ∈ w.rooms, r.id ≠ id) ∧
          ((∃ r ∈ w.rooms, r.id = id) → w'.rooms = w.rooms.map
            (fun r => if r.id == id then { r with users := r.users ++ [user] } else r)) ∧
          ((∀ r ∈ w.rooms, r.id ≠ id) →
            w'.rooms = w.rooms ++ [{ room.create api id now with users := [user] }]) ∧
          (w'.users user).my_room = some id := by
  constructor
  · intro h
    cases hm : w.multiroom with
    | false => simp [server.on_user_join, hm]
    | true =>
      by_cases hs : s = ""
      · rcases h with h | h | ⟨pre, cand, post, hd, hpre, hcand, hfree⟩
        · rw [hm] at h; cases h
        · exact absurd hs h
        · obtain ⟨id, hid⟩ := get_random_room_id_returns w (pre.length / 5) pre cand post
            (by omega) hcand hfree
          rw [← hd] at hid
          simp [server.on_user_join, hm, hs, hid]
      · simp [server.on_user_join, hm, hs]
  · intro w' hw'
    have hplace := fun id => on_user_join_resolved api w user id now
    unfold server.on_user_join at hw'
    by_cases hm : w.multiroom = true
    · rw [if_pos hm] at hw'
      by_cases hs : s = ""
      · rw [if_pos (by simp [hs])] at hw'
        cases hid : server.get_random_room_id w draws with
        | none => rw [hid] at hw'; cases hw'
        | some id =>
          rw [hid] at hw'
          have hw := Option.some.inj hw'
          subst hw
          refine ⟨id, ?_, ?_, ?_, (hplace id).1, (hplace id).2.1, (hplace id).2.2⟩
          · intro h; rw [hm] at h; cases h
          · intro _ h; exact absurd hs h
          · intro _ _
            exact get_random_room_id_sound w draws.length draws (Nat.le_refl _) id hid
      · rw [if_neg (by simpa using hs)] at hw'
        have hw := Option.some.inj hw'
        subst hw
        refine ⟨s, ?_, ?_, ?_, (hplace s).1, (hplace s).2.1, (hplace s).2.2⟩
        · intro h; rw [hm] at h; cases h
        · intro _ _; rfl
        · intro _ h; exact absurd h hs
    · rw [if_neg hm] at hw'
      have hw := Option.some.inj hw'
      subst hw
      refine ⟨"", ?_, ?_, ?_, (hplace ("")).1, (hplace ("")).2.1, (hplace ("")).2.2⟩
      · intro _; rfl
      · intro h; exact absurd h hm
      · intro h; exact absurd h hm

/-- C7, in multi-session mode with the one live session "AAAAA" and an empty
request: the first five draws spell "AAAAA", which is live, the next five spell
"BBBBB", under which a session is created for the participant, the session
"AAAAA" being as it was. -/
theorem on_user_join_session_witness :
    ∃ w', server.on_user_join still
        { empty_world true with rooms := [⟨"AAAAA", 0, [7], false, 0, false, false⟩] }
        1 "" 0 [0, 0, 0, 0, 0, 1, 1, 1, 1, 1] = some w' ∧
      w'.rooms.map (fun r => (r.id, r.users)) = [("AAAAA", [7]), ("BBBBB", [1])] := by
  obtain ⟨w', hw'⟩ := (on_user_join_session still
    { empty_world true with rooms := [⟨"AAAAA", 0, [7], false, 0, false, false⟩] }
    1 "" 0 [0, 0, 0, 0, 0, 1, 1, 1, 1, 1]).1
    (Or.inr (Or.inr ⟨[0, 0, 0, 0, 0], [1, 1, 1, 1, 1], [], rfl, rfl, rfl, by decide⟩))
  refine ⟨w', hw', ?_⟩
  have e : (server.on_user_join still
      { empty_world true with rooms := [⟨"AAAAA", 0, [7], false, 0, false, false⟩] }
      1 "" 0 [0, 0, 0, 0, 0, 1, 1, 1, 1, 1]).map
        (fun w => w.rooms.map (fun r => (r.id, r.users))) =
      some [("AAAAA", [7]), ("BBBBB", [1])] := by decide
  rw [hw'] at e
  exact Option.some.inj e

end Netplay
